import Mathlib

/-!
Verification of the license-record standardization pipeline (`prep.py`).

The pipeline operates on pandas DataFrames holding string data (the source
reads Nebraska files with `dtype=str`, and North Dakota sheets carry text
fields).  A cell is therefore either a string or missing (`NaN`); a frame is
a list of column labels together with rows of cells, one cell per column.
String operations (`str.strip`, `str.zfill`, `str.title`) map missing values
to missing values, exactly as the pandas `.str` accessor does.  Characters
are modelled at the ASCII level, which covers the data this pipeline
handles.
-/

/-- A single cell of a frame: a string, or the missing value (`NaN`). -/
inductive Cell where
  | na : Cell
  | str (s : String) : Cell
deriving DecidableEq, Repr

/-- One row of a frame, listed in column order. -/
abbrev Row := List Cell

/-- A columnar record set: column labels plus rows (one cell per column). -/
structure DataFrame where
  cols : List String
  rows : List Row
deriving DecidableEq, Repr

/-- A frame is well formed when every row has one cell per column.  Every
pandas DataFrame satisfies this by construction. -/
def DataFrame.WF (df : DataFrame) : Prop :=
  ∀ r ∈ df.rows, r.length = df.cols.length

instance (df : DataFrame) : Decidable df.WF := by
  unfold DataFrame.WF; infer_instance

/-- ASCII whitespace stripped by Python's `str.strip()`. -/
def isPySpace : Char → Bool
  | ' ' | '\t' | '\n' | '\r' | '\x0b' | '\x0c' => true
  | _ => false

/-- The ASCII lower-to-upper letter table. -/
def upPairs : List (Char × Char) :=
  [('a', 'A'), ('b', 'B'), ('c', 'C'), ('d', 'D'), ('e', 'E'), ('f', 'F'),
   ('g', 'G'), ('h', 'H'), ('i', 'I'), ('j', 'J'), ('k', 'K'), ('l', 'L'),
   ('m', 'M'), ('n', 'N'), ('o', 'O'), ('p', 'P'), ('q', 'Q'), ('r', 'R'),
   ('s', 'S'), ('t', 'T'), ('u', 'U'), ('v', 'V'), ('w', 'W'), ('x', 'X'),
   ('y', 'Y'), ('z', 'Z')]

/-- The ASCII upper-to-lower letter table. -/
def lowPairs : List (Char × Char) := upPairs.map (fun p => (p.2, p.1))

/-- ASCII uppercase map used by Python's `str.title()` on word heads. -/
def upChar (c : Char) : Char := (upPairs.lookup c).getD c

/-- ASCII lowercase map used by Python's `str.title()` on word tails. -/
def lowChar (c : Char) : Char := (lowPairs.lookup c).getD c

/-- Leading-whitespace removal. -/
def ldrop (l : List Char) : List Char := l.dropWhile isPySpace

/-- Stripping on the character list (`str.strip()`): drop whitespace at both ends. -/
def stripChars (l : List Char) : List Char :=
  ((l.dropWhile isPySpace).reverse.dropWhile isPySpace).reverse

/-- Python's `str.strip()` (ASCII whitespace). -/
def pyStrip (s : String) : String := ⟨stripChars s.data⟩

/-- Zero-fill on the character list (`Series.str.zfill(5)`).  pandas pads on the left
with `'0'` up to the width and leaves longer values unchanged; unlike the
Python built-in `str.zfill` it has no special handling for a leading sign
(see the Notes section of the pandas documentation for `Series.str.zfill`). -/
def zfillChars (l : List Char) : List Char :=
  if l.length < 5 then List.replicate (5 - l.length) '0' ++ l else l

/-- The Zip-padding step `str.zfill(5)` as applied by the pipeline. -/
def zfill5 (s : String) : String := ⟨zfillChars s.data⟩

/-- Title-casing on the character list (`str.title()`).  A word is a maximal run of
letters; the first letter of each word is uppercased and the remaining
letters are lowercased.  The flag records whether the previous character
was a letter. -/
def titleChars : Bool → List Char → List Char
  | _, [] => []
  | prev, c :: cs =>
    (if c.isAlpha then (if prev then lowChar c else upChar c) else c) ::
      titleChars c.isAlpha cs

/-- Python's `str.title()` (ASCII letters). -/
def pyTitle (s : String) : String := ⟨titleChars false s.data⟩

/-- Stripping on one cell, `.str.strip()` (missing values pass through). -/
def stripCell : Cell → Cell
  | .na => .na
  | .str s => .str (pyStrip s)

/-- Zero-fill on one cell, `.str.zfill(5)` (missing values pass through). -/
def zfillCell : Cell → Cell
  | .na => .na
  | .str s => .str (zfill5 s)

/-- Title-casing on one cell, `.str.title()` (missing values pass through). -/
def titleCell : Cell → Cell
  | .na => .na
  | .str s => .str (pyTitle s)

/-- The cell of a row at a column position (missing when out of range). -/
def getCell (r : Row) (i : Nat) : Cell := r.getD i Cell.na

/-- Replace the cell at one position by applying `f` (no-op out of range). -/
def listModify (f : Cell → Cell) : Nat → Row → Row
  | _, [] => []
  | 0, c :: cs => f c :: cs
  | n + 1, c :: cs => c :: listModify f n cs

/-- Position of the column with a given label (first occurrence). -/
def findIdx (c : String) : List String → Option Nat
  | [] => none
  | c' :: cs => if c' = c then some 0 else (findIdx c cs).map (· + 1)

/-- Apply `f` at an optional position. -/
def modifyAt? (i? : Option Nat) (f : Cell → Cell) (r : Row) : Row :=
  match i? with
  | some i => listModify f i r
  | none => r

/-- Column membership, `c in df`: whether a column label is present. -/
def hasCol (df : DataFrame) (c : String) : Bool := (findIdx c df.cols).isSome

/-- A label usable by `df[c].str`: present exactly once.  When a label is
absent, `df[c]` raises a `KeyError`; when it is duplicated, `df[c]`
selects a sub-DataFrame, which has no `.str`, and pandas raises an
`AttributeError`. -/
def uniqueCol (df : DataFrame) (c : String) : Bool :=
  decide (df.cols.countP (fun c' => decide (c' = c)) = 1)

/-- Line 31 of `prep.py`: strip whitespace on every (string) cell of every
column; missing values pass through, so columns that pandas would skip by
dtype are unchanged as well. -/
def stripAll (df : DataFrame) : DataFrame :=
  ⟨df.cols, df.rows.map (List.map stripCell)⟩

/-- Column rewrite, `df[c] = df[c].apply(f)` or a `.str` method: rewrite
the column at the first occurrence of the label.  `Prep.common` errors up
front when one of its `.str`-accessed labels is absent or duplicated
(`KeyError` / `AttributeError` in pandas), so on the guarded labels the
first occurrence is the unique one and this coincides with pandas. -/
def mapColumn (df : DataFrame) (c : String) (f : Cell → Cell) : DataFrame :=
  ⟨df.cols, df.rows.map (modifyAt? (findIdx c df.cols) f)⟩

/-- Scalar column assignment `df[c] = v`: overwrite the column if present, otherwise
append it on the right, exactly as pandas column assignment does. -/
def setConstCol (df : DataFrame) (c : String) (v : Cell) : DataFrame :=
  match findIdx c df.cols with
  | some i => ⟨df.cols, df.rows.map (listModify (fun _ => v) i)⟩
  | none => ⟨df.cols ++ [c], df.rows.map (fun r => r ++ [v])⟩

/-- Duplicate removal, `drop_duplicates`: keeps the first occurrence of each row.  The
accumulator holds rows already emitted. -/
def dedupAux : List Row → List Row → List Row
  | _, [] => []
  | seen, r :: rs =>
    if r ∈ seen then dedupAux seen rs else r :: dedupAux (r :: seen) rs

/-- Duplicate removal `df.drop_duplicates()` on the row list. -/
def dedupRows (l : List Row) : List Row := dedupAux [] l

/-- Multiplicity of a row in a row list. -/
def countRow (a : Row) (l : List Row) : Nat :=
  l.countP (fun r => decide (r = a))

/-- Value of the labelled column in a row (missing when the label is
absent, as `reindex` fills absent columns with `NaN`). -/
def lookupCell (cols : List String) (r : Row) (c : String) : Cell :=
  match findIdx c cols with
  | some i => getCell r i
  | none => Cell.na

/-- One row of `df.reindex(columns=newCols)`. -/
def reindexRow (cols newCols : List String) (r : Row) : Row :=
  newCols.map (lookupCell cols r)

/-- Reindexing, `df.reindex(columns=newCols)`: select/reorder columns, filling columns
that were not present with missing values. -/
def reindex (df : DataFrame) (newCols : List String) : DataFrame :=
  ⟨newCols, df.rows.map (reindexRow df.cols newCols)⟩

/-- Value of the labelled column in a row of a frame. -/
def colVal (df : DataFrame) (r : Row) (c : String) : Cell :=
  lookupCell df.cols r c

/-- Whether `needle` occurs contiguously inside the character list. -/
def containsSeq (needle : List Char) : List Char → Bool
  | [] => needle.isEmpty
  | c :: t => needle.isPrefixOf (c :: t) || containsSeq needle t

/-- Python's substring test `needle in hay`. -/
def strContains (hay needle : String) : Bool := containsSeq needle.data hay.data

/-- The ten standard output columns, in the fixed order of line 54. -/
def stdCols : List String :=
  ["FirstName", "MiddleName", "LastName", "Suffix", "Street", "City",
   "State", "Zip", "Hunt", "Fish"]

/-- The pre-tagging standard columns a state transform delivers. -/
def std8 : List String :=
  ["FirstName", "MiddleName", "LastName", "Suffix", "Street", "City",
   "State", "Zip"]

/-- The Common Finisher `Prep._common` (lines 14-56 of `prep.py`): strip whitespace, zero-fill
`Zip`, title-case the name/address columns, drop duplicate rows, add the
`Hunt`/`Fish` tags from the source path, and reindex to the ten standard
columns.  Accessing a missing required column raises a `KeyError` in
pandas, and accessing a duplicated one raises an `AttributeError` (the
selection is a sub-DataFrame without `.str`); the guard performs those
checks up front for the six labels the finisher accesses with `.str`. -/
def Prep.common (df : DataFrame) (PATH : String) : Except String DataFrame :=
  if uniqueCol df "Zip" && uniqueCol df "FirstName" &&
      uniqueCol df "MiddleName" && uniqueCol df "LastName" &&
      uniqueCol df "Street" && uniqueCol df "City" then
    let d1 := stripAll df
    let d2 := mapColumn d1 "Zip" zfillCell
    let d3a := mapColumn d2 "FirstName" titleCell
    let d3b := mapColumn d3a "MiddleName" titleCell
    let d3c := mapColumn d3b "LastName" titleCell
    let d3d := mapColumn d3c "Street" titleCell
    let d3e := mapColumn d3d "City" titleCell
    let d4 : DataFrame := ⟨d3e.cols, dedupRows d3e.rows⟩
    let d5 := setConstCol d4 "Hunt" (Cell.str "")
    let d6 := setConstCol d5 "Fish" (Cell.str "")
    let d7 := mapColumn d6 "Hunt"
      (fun x => if strContains PATH "Hunt" then Cell.str "Y" else x)
    let d8 := mapColumn d7 "Fish"
      (fun x => if strContains PATH "Fish" then Cell.str "Y" else x)
    Except.ok (reindex d8 stdCols)
  else
    Except.error "KeyError or AttributeError: required column missing or duplicated"

/-- Remove every column with the given label (`df.drop(columns=[c])`),
dropping the cells at the matching positions of each row. -/
def maskKeep : List Bool → Row → Row
  | b :: bs, x :: xs => if b then x :: maskKeep bs xs else maskKeep bs xs
  | _, _ => []

/-- Column drop `df.drop(columns=[c])` for a present label. -/
def dropCol (df : DataFrame) (c : String) : DataFrame :=
  ⟨df.cols.filter (fun c' => c' ≠ c),
   df.rows.map (maskKeep (df.cols.map (fun c' => c' ≠ c)))⟩

/-- Renaming, `df.rename(columns=m)`: labels found in the mapping are replaced,
others are untouched; rows are unchanged. -/
def renameCols (df : DataFrame) (m : List (String × String)) : DataFrame :=
  ⟨df.cols.map (fun c => match m.lookup c with | some c' => c' | none => c),
   df.rows⟩

/-- The Nebraska rename mapping of line 75. -/
def neRenames : List (String × String) :=
  [("firstName", "FirstName"), ("middleName", "MiddleName"),
   ("lastName", "LastName"), ("street", "Street"), ("city", "City"),
   ("state", "State"), ("zip", "Zip")]

/-- The Nebraska transform `Prep.nebraska` (lines 58-80) after the tab-separated read: drop the
optional `Sex`/`email` columns when present, unconditionally drop the
permit columns (pandas raises `KeyError` when one is absent), rename to
the standard labels and finish with `Prep.common`.  The argument is the
frame produced by `pd.read_csv(PATH, sep='\t', dtype=str)`. -/
def Prep.nebraska (df : DataFrame) (PATH : String) : Except String DataFrame :=
  let d1 := if hasCol df "Sex" then dropCol df "Sex" else df
  let d2 := if hasCol d1 "email" then dropCol d1 "email" else d1
  if hasCol d2 "permitYear" && hasCol d2 "Permit Type" && hasCol d2 "FullName" then
    Prep.common
      (renameCols (dropCol (dropCol (dropCol d2 "permitYear") "Permit Type")
        "FullName") neRenames) PATH
  else
    Except.error "KeyError: column not found in axis"

/-- The column names assigned to the headerless North Dakota data
(line 88). -/
def ndCols : List String :=
  ["LastName", "FirstName", "MiddleName", "Street", "City", "State", "Zip"]

/-- The North Dakota transform `Prep.north_dakota` (lines 82-93) after the spreadsheet read: the
argument is the concatenation of all sheets read with `header=None`.
Assigning `df.columns` requires exactly seven columns (pandas raises a
length-mismatch `ValueError` otherwise); the rows then flow through
`Prep.common`. -/
def Prep.north_dakota (df : DataFrame) (PATH : String) :
    Except String DataFrame :=
  if df.cols.length = 7 then Prep.common ⟨ndCols, df.rows⟩ PATH
  else Except.error "ValueError: Length mismatch"

/-- Column union of `pd.concat`, in order of first appearance
(`sort=False`). -/
def allCols (ds : List DataFrame) : List String :=
  ds.foldl (fun acc d => acc ++ d.cols.filter (fun c => decide (c ∉ acc))) []

/-- Concatenation `pd.concat(ds)`: rows are stacked, columns aligned to the union with
missing values where a frame lacks a column.  pandas raises
`ValueError: No objects to concatenate` on an empty list.  In this
pipeline every concatenated frame carries the same column list, where
this alignment degenerates to appending the row lists. -/
def concatDFs (ds : List DataFrame) : Except String DataFrame :=
  match ds with
  | [] => Except.error "ValueError: No objects to concatenate"
  | _ :: _ =>
    Except.ok ⟨allCols ds, (ds.map (fun d => (reindex d (allCols ds)).rows)).flatten⟩

/-- The State Aggregator `prep_state` (lines 95-139).  The filesystem is passed explicitly:
`none` models a missing state root (where `os.listdir` raises
`FileNotFoundError`), and `some folders` gives, per category subfolder,
the list of file paths it holds.  The state's transform is the function
from a file path to its standardized frame; a failing file aborts the
whole state.  Results are concatenated and exact-duplicate rows removed. -/
def prep_state (root : Option (List (List String)))
    (method : String → Except String DataFrame) : Except String DataFrame :=
  match root with
  | none => Except.error "FileNotFoundError"
  | some folders => do
    let dfs ← folders.flatten.mapM method
    let d ← concatDFs dfs
    return ⟨d.cols, dedupRows d.rows⟩

/-- The columns of the Nebraska/North Dakota tagging loop, pre-reindex:
the frame's columns with `Hunt` and `Fish` ensured present. -/
def hfCols (cols : List String) : List String :=
  let c1 := match findIdx "Hunt" cols with
    | some _ => cols
    | none => cols ++ ["Hunt"]
  match findIdx "Fish" c1 with
  | some _ => c1
  | none => c1 ++ ["Fish"]

/-- Rowwise effect of lines 46-47: make empty `Hunt`/`Fish` cells. -/
def hfRow (cols : List String) (r : Row) : Row :=
  let c1 := match findIdx "Hunt" cols with
    | some _ => cols
    | none => cols ++ ["Hunt"]
  let r1 := match findIdx "Hunt" cols with
    | some i => listModify (fun _ => Cell.str "") i r
    | none => r ++ [Cell.str ""]
  match findIdx "Fish" c1 with
  | some i => listModify (fun _ => Cell.str "") i r1
  | none => r1 ++ [Cell.str ""]

/-- Rowwise effect of lines 50-51: set the tags from the source path. -/
def tagRow (cols : List String) (PATH : String) (r : Row) : Row :=
  let hc := hfCols cols
  let r1 := modifyAt? (findIdx "Hunt" hc)
    (fun x => if strContains PATH "Hunt" then Cell.str "Y" else x) r
  modifyAt? (findIdx "Fish" hc)
    (fun x => if strContains PATH "Fish" then Cell.str "Y" else x) r1

/-- Rowwise effect of lines 31-40: strip every cell, zero-fill the `Zip`
cell and title-case the five name/address cells. -/
def procRow (cols : List String) (r : Row) : Row :=
  modifyAt? (findIdx "City" cols) titleCell
    (modifyAt? (findIdx "Street" cols) titleCell
      (modifyAt? (findIdx "LastName" cols) titleCell
        (modifyAt? (findIdx "MiddleName" cols) titleCell
          (modifyAt? (findIdx "FirstName" cols) titleCell
            (modifyAt? (findIdx "Zip" cols) zfillCell (r.map stripCell))))))

/-- The full standardized image of one input row under `Prep._common`
(every output row is of this shape for some surviving input row). -/
def finishRow (cols : List String) (PATH : String) (r : Row) : Row :=
  reindexRow (hfCols cols) stdCols (tagRow cols PATH (hfRow cols (procRow cols r)))

/-- A character list is clean when neither end carries whitespace: the
fixed points of `str.strip()`. -/
def Clean (l : List Char) : Prop :=
  (∀ c, l.head? = some c → isPySpace c = false) ∧
  (∀ c, l.reverse.head? = some c → isPySpace c = false)

/-- Normal form of the rows produced by `Prep.common`: strip/zfill/title
each row, drop duplicates, then append/overwrite the tags and reindex. -/
def commonRows (cols : List String) (PATH : String) (rows : List Row) :
    List Row :=
  (dedupRows (rows.map (procRow cols))).map
    (fun m => reindexRow (hfCols cols) stdCols (tagRow cols PATH (hfRow cols m)))

/-! ## Concrete fixtures used to instantiate the theorems -/

/-- A one-row pre-tagging frame with the eight standard columns. -/
def wdf : DataFrame :=
  ⟨std8,
   [[Cell.str " john", Cell.str "q", Cell.str "DOE", Cell.str "Jr",
     Cell.str "123 main st", Cell.str "lincoln", Cell.str "NE",
     Cell.str "685"]]⟩

/-- The row held by `wdf`. -/
def wRow : Row :=
  [Cell.str " john", Cell.str "q", Cell.str "DOE", Cell.str "Jr",
   Cell.str "123 main st", Cell.str "lincoln", Cell.str "NE", Cell.str "685"]

/-- The frame `wdf` with its row duplicated. -/
def wdf2 : DataFrame := ⟨std8, [wRow, wRow]⟩

/-- The standardized image of the rows of `c5df` that agree outside the
extra column. -/
def c5img : Row :=
  [Cell.str "Aa", Cell.str "Bb", Cell.str "Cc", Cell.na, Cell.str "Dd",
   Cell.str "Ee", Cell.na, Cell.str "11111", Cell.str "", Cell.str ""]

/-- The Common Finisher's output for `c4df`: the two input rows collapse
to identical output rows once `Extra` is dropped by the reindex. -/
def c4out : DataFrame := ⟨stdCols, [c5img, c5img]⟩

/-- The Common Finisher's output for `c4out`: the duplicate is removed. -/
def c4out2 : DataFrame := ⟨stdCols, [c5img]⟩

/-- The single standardized row produced from `wdf` under a `Hunt` path. -/
def wOutRow : Row :=
  [Cell.str "John", Cell.str "Q", Cell.str "Doe", Cell.str "Jr",
   Cell.str "123 Main St", Cell.str "Lincoln", Cell.str "NE",
   Cell.str "00685", Cell.str "Y", Cell.str ""]

/-- The Common Finisher's output for `wdf` under a `Hunt` path. -/
def wdfOut : DataFrame := ⟨stdCols, [wOutRow]⟩

/-- The standardized row produced from `nddf` under a `Hunt` path. -/
def ndOutRow : Row :=
  [Cell.str "Ann", Cell.str "B", Cell.str "Smith", Cell.na,
   Cell.str "2 C Ave", Cell.str "Fargo", Cell.str "ND", Cell.str "58102",
   Cell.str "Y", Cell.str ""]

/-- The North Dakota transform's output for `nddf` under a `Hunt` path. -/
def ndOut : DataFrame := ⟨stdCols, [ndOutRow]⟩

/-- A frame whose `Zip` value has six characters. -/
def c1df : DataFrame :=
  ⟨["FirstName", "MiddleName", "LastName", "Street", "City", "Zip"],
   [[Cell.str "Aa", Cell.str "Bb", Cell.str "Cc", Cell.str "Dd",
     Cell.str "Ee", Cell.str "123456"]]⟩

/-- The Common Finisher's output for `c1df`. -/
def c1out : DataFrame :=
  ⟨stdCols,
   [[Cell.str "Aa", Cell.str "Bb", Cell.str "Cc", Cell.na, Cell.str "Dd",
     Cell.str "Ee", Cell.na, Cell.str "123456", Cell.str "", Cell.str ""]]⟩

/-- The single row of `c1out`. -/
def c1row : Row :=
  [Cell.str "Aa", Cell.str "Bb", Cell.str "Cc", Cell.na, Cell.str "Dd",
   Cell.str "Ee", Cell.na, Cell.str "123456", Cell.str "", Cell.str ""]

/-- Two rows identical except in an extra column that the reindex drops. -/
def c4df : DataFrame :=
  ⟨["FirstName", "MiddleName", "LastName", "Street", "City", "Zip", "Extra"],
   [[Cell.str "Aa", Cell.str "Bb", Cell.str "Cc", Cell.str "Dd",
     Cell.str "Ee", Cell.str "11111", Cell.str "x"],
    [Cell.str "Aa", Cell.str "Bb", Cell.str "Cc", Cell.str "Dd",
     Cell.str "Ee", Cell.str "11111", Cell.str "y"]]⟩

/-- A frame with an exact-duplicate pair plus a row differing only in the
extra column. -/
def c5df : DataFrame :=
  ⟨["FirstName", "MiddleName", "LastName", "Street", "City", "Zip", "Extra"],
   [[Cell.str "Aa", Cell.str "Bb", Cell.str "Cc", Cell.str "Dd",
     Cell.str "Ee", Cell.str "11111", Cell.str "x"],
    [Cell.str "Aa", Cell.str "Bb", Cell.str "Cc", Cell.str "Dd",
     Cell.str "Ee", Cell.str "11111", Cell.str "x"],
    [Cell.str "Aa", Cell.str "Bb", Cell.str "Cc", Cell.str "Dd",
     Cell.str "Ee", Cell.str "11111", Cell.str "y"]]⟩

/-- The duplicated input row of `c5df`. -/
def c5row : Row :=
  [Cell.str "Aa", Cell.str "Bb", Cell.str "Cc", Cell.str "Dd",
   Cell.str "Ee", Cell.str "11111", Cell.str "x"]

/-- A one-row standardized frame used as a transform result. -/
def sdf : DataFrame :=
  ⟨stdCols,
   [[Cell.str "Aa", Cell.str "Bb", Cell.str "Cc", Cell.na, Cell.str "Dd",
     Cell.str "Ee", Cell.na, Cell.str "11111", Cell.str "Y", Cell.str ""]]⟩

/-- The row held by `sdf`. -/
def sdfRow : Row :=
  [Cell.str "Aa", Cell.str "Bb", Cell.str "Cc", Cell.na, Cell.str "Dd",
   Cell.str "Ee", Cell.na, Cell.str "11111", Cell.str "Y", Cell.str ""]

/-- A transform that returns `sdf` for every file. -/
def wMethod : String → Except String DataFrame := fun _ => Except.ok sdf

/-- A parsed Nebraska source frame with the permit columns and no
optional `Sex`/`email` columns. -/
def nedf : DataFrame :=
  ⟨["permitYear", "Permit Type", "FullName", "firstName", "middleName",
    "lastName", "street", "city", "state", "zip"],
   [[Cell.str "2020", Cell.str "Deer", Cell.str "John Q Doe",
     Cell.str "John", Cell.str "Q", Cell.str "Doe", Cell.str "1 A St",
     Cell.str "Omaha", Cell.str "NE", Cell.str "68102"]]⟩

/-- A parsed Nebraska source frame missing the required `permitYear`. -/
def nedfBad : DataFrame :=
  ⟨["Permit Type", "FullName", "firstName", "middleName", "lastName",
    "street", "city", "state", "zip"],
   [[Cell.str "Deer", Cell.str "John Q Doe", Cell.str "John", Cell.str "Q",
     Cell.str "Doe", Cell.str "1 A St", Cell.str "Omaha", Cell.str "NE",
     Cell.str "68102"]]⟩

/-- A parsed Nebraska source frame that also carries a `FirstName` column
next to `firstName`: after the rename the label `FirstName` is duplicated
and the real `_common` crashes with an `AttributeError` in the title
loop. -/
def nedfDup : DataFrame :=
  ⟨["permitYear", "Permit Type", "FullName", "firstName", "middleName",
    "lastName", "street", "city", "state", "zip", "FirstName"],
   [[Cell.str "2020", Cell.str "Deer", Cell.str "John Q Doe",
     Cell.str "John", Cell.str "Q", Cell.str "Doe", Cell.str "1 A St",
     Cell.str "Omaha", Cell.str "NE", Cell.str "68102", Cell.str "JOHN"]]⟩

/-- A parsed North Dakota workbook: seven positional columns. -/
def nddf : DataFrame :=
  ⟨["0", "1", "2", "3", "4", "5", "6"],
   [[Cell.str "Smith", Cell.str "Ann", Cell.str "B", Cell.str "2 C Ave",
     Cell.str "Fargo", Cell.str "ND", Cell.str "58102"]]⟩

/-! ## Character-level lemmas -/

theorem lookup_pair_mem {α β : Type} [BEq α] [LawfulBEq α]
    {l : List (α × β)} {c : α} {v : β}
    (h : l.lookup c = some v) : (c, v) ∈ l := by
  induction l with
  | nil => simp [List.lookup] at h
  | cons p t ih =>
    obtain ⟨k, b⟩ := p
    rw [List.lookup_cons] at h
    cases hck : (c == k) with
    | false => rw [hck] at h; exact List.mem_cons_of_mem _ (ih h)
    | true =>
      rw [hck] at h
      have hck' : c = k := by exact_mod_cast eq_of_beq hck
      cases h
      exact hck' ▸ List.mem_cons_self _ _

theorem upChar_isAlpha (c : Char) : (upChar c).isAlpha = c.isAlpha := by
  unfold upChar
  cases h : upPairs.lookup c with
  | none => rfl
  | some v =>
    have hf : ∀ p ∈ upPairs, p.2.isAlpha = p.1.isAlpha := by decide
    simpa using hf _ (lookup_pair_mem h)

theorem lowChar_isAlpha (c : Char) : (lowChar c).isAlpha = c.isAlpha := by
  unfold lowChar
  cases h : lowPairs.lookup c with
  | none => rfl
  | some v =>
    have hf : ∀ p ∈ lowPairs, p.2.isAlpha = p.1.isAlpha := by decide
    simpa using hf _ (lookup_pair_mem h)

theorem isPySpace_upChar (c : Char) : isPySpace (upChar c) = isPySpace c := by
  unfold upChar
  cases h : upPairs.lookup c with
  | none => rfl
  | some v =>
    have hf : ∀ p ∈ upPairs, isPySpace p.2 = isPySpace p.1 := by decide
    simpa using hf _ (lookup_pair_mem h)

theorem isPySpace_lowChar (c : Char) : isPySpace (lowChar c) = isPySpace c := by
  unfold lowChar
  cases h : lowPairs.lookup c with
  | none => rfl
  | some v =>
    have hf : ∀ p ∈ lowPairs, isPySpace p.2 = isPySpace p.1 := by decide
    simpa using hf _ (lookup_pair_mem h)

theorem upChar_upChar (c : Char) : upChar (upChar c) = upChar c := by
  cases h : upPairs.lookup c with
  | none => have h1 : upChar c = c := by unfold upChar; rw [h]; rfl
            rw [h1]; exact h1
  | some v =>
    have h1 : upChar c = v := by unfold upChar; rw [h]; rfl
    have hf : ∀ p ∈ upPairs, upChar p.2 = p.2 := by decide
    rw [h1]; exact hf _ (lookup_pair_mem h)

theorem lowChar_lowChar (c : Char) : lowChar (lowChar c) = lowChar c := by
  cases h : lowPairs.lookup c with
  | none => have h1 : lowChar c = c := by unfold lowChar; rw [h]; rfl
            rw [h1]; exact h1
  | some v =>
    have h1 : lowChar c = v := by unfold lowChar; rw [h]; rfl
    have hf : ∀ p ∈ lowPairs, lowChar p.2 = p.2 := by decide
    rw [h1]; exact hf _ (lookup_pair_mem h)

/-! ## String-level lemmas: strip, zfill, title -/

theorem dropWhile_space_length_le (l : List Char) :
    (l.dropWhile isPySpace).length ≤ l.length := by
  induction l with
  | nil => simp
  | cons a t ih =>
    rw [List.dropWhile_cons]
    split
    · exact Nat.le_trans ih (Nat.le_succ _)
    · simp

theorem dropWhile_space_eq_self_of_length {l : List Char}
    (h : (l.dropWhile isPySpace).length = l.length) :
    l.dropWhile isPySpace = l := by
  cases l with
  | nil => simp
  | cons a t =>
    by_cases ha : isPySpace a = true
    · rw [List.dropWhile_cons, if_pos ha] at h
      have := dropWhile_space_length_le t
      simp at h
      omega
    · rw [List.dropWhile_cons, if_neg ha]

theorem dropWhile_space_head {l : List Char} {c : Char}
    (h : (l.dropWhile isPySpace).head? = some c) : isPySpace c = false := by
  induction l with
  | nil => simp at h
  | cons a t ih =>
    rw [List.dropWhile_cons] at h
    split at h
    · exact ih h
    · simp at h
      subst h
      simp_all

theorem dropWhile_space_eq_self_of_head {l : List Char}
    (h : ∀ c, l.head? = some c → isPySpace c = false) :
    l.dropWhile isPySpace = l := by
  cases l with
  | nil => simp
  | cons a t =>
    rw [List.dropWhile_cons, if_neg]
    simp [h a rfl]

theorem dropWhile_space_suffix (l : List Char) :
    ∃ t, t ++ l.dropWhile isPySpace = l := by
  induction l with
  | nil => exact ⟨[], rfl⟩
  | cons a t ih =>
    rw [List.dropWhile_cons]
    split
    · obtain ⟨u, hu⟩ := ih
      exact ⟨a :: u, by simp [hu]⟩
    · exact ⟨[], rfl⟩

theorem clean_stripChars (l : List Char) : Clean (stripChars l) := by
  unfold stripChars
  constructor
  · intro c hc
    obtain ⟨t, ht⟩ :=
      dropWhile_space_suffix (l.dropWhile isPySpace).reverse
    have hpref :
        ((l.dropWhile isPySpace).reverse.dropWhile isPySpace).reverse ++
          t.reverse = l.dropWhile isPySpace := by
      have := congrArg List.reverse ht
      simpa [List.reverse_append] using this
    cases hrev :
        ((l.dropWhile isPySpace).reverse.dropWhile isPySpace).reverse with
    | nil => rw [hrev] at hc; simp at hc
    | cons d u =>
      rw [hrev] at hc hpref
      have hdc : d = c := by simpa using hc
      have hhead : (l.dropWhile isPySpace).head? = some d := by
        rw [← hpref]; rfl
      exact hdc ▸ dropWhile_space_head hhead
  · intro c hc
    rw [List.reverse_reverse] at hc
    exact dropWhile_space_head hc

theorem stripChars_eq_self_iff {l : List Char} : stripChars l = l ↔ Clean l := by
  constructor
  · intro h
    have hlen1 : (l.dropWhile isPySpace).length ≤ l.length :=
      dropWhile_space_length_le l
    have hlen2 :
        ((l.dropWhile isPySpace).reverse.dropWhile isPySpace).length ≤
          (l.dropWhile isPySpace).length := by
      simpa using dropWhile_space_length_le (l.dropWhile isPySpace).reverse
    have hlen3 : (stripChars l).length =
        ((l.dropWhile isPySpace).reverse.dropWhile isPySpace).length := by
      simp [stripChars]
    have hlenl : (stripChars l).length = l.length := by rw [h]
    have h1 : l.dropWhile isPySpace = l := by
      apply dropWhile_space_eq_self_of_length
      omega
    have h2 : l.reverse.dropWhile isPySpace = l.reverse := by
      have : (l.reverse.dropWhile isPySpace).reverse = l := by
        have := h
        unfold stripChars at this
        rwa [h1] at this
      calc l.reverse.dropWhile isPySpace
          = ((l.reverse.dropWhile isPySpace).reverse).reverse := by
            rw [List.reverse_reverse]
        _ = l.reverse := by rw [this]
    constructor
    · intro c hc
      exact dropWhile_space_head (h1 ▸ hc)
    · intro c hc
      exact dropWhile_space_head (h2 ▸ hc)
  · intro h
    have h1 : l.dropWhile isPySpace = l :=
      dropWhile_space_eq_self_of_head h.1
    have h2 : l.reverse.dropWhile isPySpace = l.reverse :=
      dropWhile_space_eq_self_of_head h.2
    unfold stripChars
    rw [h1, h2, List.reverse_reverse]

theorem stripChars_stripChars (l : List Char) :
    stripChars (stripChars l) = stripChars l :=
  stripChars_eq_self_iff.mpr (clean_stripChars l)

theorem zfillChars_length (l : List Char) :
    (zfillChars l).length = max 5 l.length := by
  unfold zfillChars
  split <;> simp <;> omega

theorem zfillChars_zfillChars (l : List Char) :
    zfillChars (zfillChars l) = zfillChars l := by
  unfold zfillChars
  by_cases hl : l.length < 5
  · rw [if_pos hl]
    have h5 : ¬ (List.replicate (5 - l.length) '0' ++ l).length < 5 := by
      simp
      omega
    rw [if_neg h5]
  · rw [if_neg hl]
    rw [if_neg hl]

theorem clean_zfillChars {l : List Char} (h : Clean l) : Clean (zfillChars l) := by
  unfold zfillChars
  split
  · cases l with
    | nil =>
      constructor
      · intro c hc
        simp [List.replicate] at hc
        subst hc; rfl
      · intro c hc
        simp [List.reverse_replicate, List.replicate] at hc
        subst hc; rfl
    | cons a t =>
      have hk : 5 - (a :: t).length = (4 - (a :: t).length) + 1 := by
        simp at *; omega
      constructor
      · intro c hc
        rw [hk, List.replicate_succ] at hc
        simp at hc
        subst hc; rfl
      · intro c hc
        rw [List.reverse_append] at hc
        cases hrl : (a :: t).reverse with
        | nil => simp at hrl
        | cons d u =>
          rw [hrl] at hc
          simp at hc
          have hdc : d = c := hc
          have := h.2 d (by rw [hrl]; rfl)
          exact hdc ▸ this
  · exact h

theorem map_isPySpace_titleChars (b : Bool) (l : List Char) :
    (titleChars b l).map isPySpace = l.map isPySpace := by
  induction l generalizing b with
  | nil => rfl
  | cons c cs ih =>
    simp only [titleChars, List.map_cons, ih]
    congr 1
    by_cases hc : c.isAlpha = true
    · rw [if_pos hc]
      cases b
      · simp [isPySpace_upChar]
      · simp [isPySpace_lowChar]
    · rw [if_neg hc]

theorem titleChars_titleChars (b : Bool) (l : List Char) :
    titleChars b (titleChars b l) = titleChars b l := by
  induction l generalizing b with
  | nil => rfl
  | cons c cs ih =>
    by_cases hc : c.isAlpha = true
    · cases b
      · have h1 : (upChar c).isAlpha = true := by rw [upChar_isAlpha]; exact hc
        simp only [titleChars, if_pos hc, Bool.false_eq_true, if_false,
          if_pos h1, upChar_upChar, upChar_isAlpha]
        rw [hc, ih]
      · have h1 : (lowChar c).isAlpha = true := by rw [lowChar_isAlpha]; exact hc
        simp only [titleChars, if_pos hc, if_true, if_pos h1,
          lowChar_lowChar, lowChar_isAlpha]
        rw [hc, ih]
    · simp only [titleChars, if_neg hc]
      rw [ih]

theorem clean_titleChars {l : List Char} (b : Bool) (h : Clean l) :
    Clean (titleChars b l) := by
  constructor
  · intro c hc
    cases l with
    | nil => simp [titleChars] at hc
    | cons a t =>
      simp only [titleChars] at hc
      simp at hc
      have ha := h.1 a rfl
      by_cases hal : a.isAlpha = true
      · rw [if_pos hal] at hc
        cases b
        · rw [← hc]; simp [isPySpace_upChar, ha]
        · rw [← hc]; simp [isPySpace_lowChar, ha]
      · rw [if_neg hal] at hc
        rw [← hc]; exact ha
  · intro c hc
    have hmask := map_isPySpace_titleChars b l
    have hrev : ((titleChars b l).reverse).map isPySpace =
        (l.reverse).map isPySpace := by
      rw [List.map_reverse, List.map_reverse, hmask]
    have hhd := congrArg List.head? hrev
    rw [List.head?_map, List.head?_map, hc] at hhd
    cases hl : l.reverse.head? with
    | none => rw [hl] at hhd; simp at hhd
    | some d =>
      rw [hl] at hhd
      simp at hhd
      rw [hhd]
      exact h.2 d hl

theorem pyStrip_eq_self {s : String} (h : Clean s.data) : pyStrip s = s := by
  cases s with
  | mk d => exact congrArg String.mk (stripChars_eq_self_iff.mpr h)

theorem clean_pyStrip (s : String) : Clean (pyStrip s).data :=
  clean_stripChars s.data

theorem pyStrip_pyStrip (s : String) : pyStrip (pyStrip s) = pyStrip s :=
  pyStrip_eq_self (clean_pyStrip s)

theorem pyStrip_zfill5 {s : String} (h : Clean s.data) :
    pyStrip (zfill5 s) = zfill5 s :=
  pyStrip_eq_self (clean_zfillChars h)

theorem zfill5_zfill5 (s : String) : zfill5 (zfill5 s) = zfill5 s :=
  congrArg String.mk (zfillChars_zfillChars s.data)

theorem pyStrip_pyTitle {s : String} (h : Clean s.data) :
    pyStrip (pyTitle s) = pyTitle s :=
  pyStrip_eq_self (clean_titleChars false h)

theorem pyTitle_pyTitle (s : String) : pyTitle (pyTitle s) = pyTitle s :=
  congrArg String.mk (titleChars_titleChars false s.data)

/-! ## Cell-level stability lemmas -/

theorem stripCell_stripCell (c : Cell) : stripCell (stripCell c) = stripCell c := by
  cases c with
  | na => rfl
  | str s => simp [stripCell, pyStrip_pyStrip]

theorem stripCell_zfillCell_stripCell (c : Cell) :
    stripCell (zfillCell (stripCell c)) = zfillCell (stripCell c) := by
  cases c with
  | na => rfl
  | str s => simp [stripCell, zfillCell, pyStrip_zfill5 (clean_pyStrip s)]

theorem zfillCell_zfillCell (c : Cell) : zfillCell (zfillCell c) = zfillCell c := by
  cases c with
  | na => rfl
  | str s => simp [zfillCell, zfill5_zfill5]

theorem stripCell_titleCell_stripCell (c : Cell) :
    stripCell (titleCell (stripCell c)) = titleCell (stripCell c) := by
  cases c with
  | na => rfl
  | str s => simp [stripCell, titleCell, pyStrip_pyTitle (clean_pyStrip s)]

theorem titleCell_titleCell (c : Cell) : titleCell (titleCell c) = titleCell c := by
  cases c with
  | na => rfl
  | str s => simp [titleCell, pyTitle_pyTitle]

/-! ## Row-level lemmas -/

theorem getCell_nil (i : Nat) : getCell [] i = Cell.na := by
  cases i <;> rfl

theorem getCell_map {f : Cell → Cell} (hf : f Cell.na = Cell.na) (r : Row)
    (i : Nat) : getCell (r.map f) i = f (getCell r i) := by
  induction r generalizing i with
  | nil => simp [getCell_nil, hf]
  | cons c t ih =>
    cases i with
    | zero => rfl
    | succ n => simpa [getCell] using ih n

theorem listModify_length (f : Cell → Cell) (i : Nat) (r : Row) :
    (listModify f i r).length = r.length := by
  induction r generalizing i with
  | nil => cases i <;> rfl
  | cons c t ih =>
    cases i with
    | zero => rfl
    | succ n => simpa [listModify] using ih n

theorem getCell_listModify_self {f : Cell → Cell} (hf : f Cell.na = Cell.na)
    (i : Nat) (r : Row) : getCell (listModify f i r) i = f (getCell r i) := by
  induction r generalizing i with
  | nil => simp [listModify, getCell_nil, hf]
  | cons c t ih =>
    cases i with
    | zero => rfl
    | succ n => simpa [listModify, getCell] using ih n

theorem getCell_listModify_ne {i j : Nat} (h : i ≠ j) (f : Cell → Cell)
    (r : Row) : getCell (listModify f j r) i = getCell r i := by
  induction r generalizing i j with
  | nil => simp [listModify]
  | cons c t ih =>
    cases j with
    | zero =>
      cases i with
      | zero => exact absurd rfl h
      | succ m => rfl
    | succ n =>
      cases i with
      | zero => rfl
      | succ m =>
        simp only [listModify, getCell, List.getD_cons_succ] at *
        exact ih (fun hmn => h (by omega))

theorem listModify_eq_self {f : Cell → Cell} {i : Nat} {r : Row}
    (h : f (getCell r i) = getCell r i) : listModify f i r = r := by
  induction r generalizing i with
  | nil => cases i <;> rfl
  | cons c t ih =>
    cases i with
    | zero => simp only [listModify]; rw [show getCell (c :: t) 0 = c from rfl] at h; rw [h]
    | succ n =>
      simp only [listModify]
      rw [ih]
      exact h

theorem listModify_listModify (f g : Cell → Cell) (i : Nat) (r : Row) :
    listModify f i (listModify g i r) = listModify (fun x => f (g x)) i r := by
  induction r generalizing i with
  | nil => cases i <;> rfl
  | cons c t ih =>
    cases i with
    | zero => rfl
    | succ n => simpa [listModify] using ih n

theorem getCell_append_lt {r : Row} {i : Nat} (h : i < r.length) (t : Row) :
    getCell (r ++ t) i = getCell r i := by
  induction r generalizing i with
  | nil => simp at h
  | cons c u ih =>
    cases i with
    | zero => rfl
    | succ n =>
      simp only [List.cons_append, getCell, List.getD_cons_succ]
      exact ih (by simpa using h)

theorem getCell_append_right (r t : Row) (k : Nat) :
    getCell (r ++ t) (r.length + k) = getCell t k := by
  induction r with
  | nil => simp
  | cons c u ih =>
    simpa [getCell, List.getD_cons_succ, Nat.succ_add] using ih

theorem rowExt {r₁ r₂ : Row} (hlen : r₁.length = r₂.length)
    (h : ∀ i, getCell r₁ i = getCell r₂ i) : r₁ = r₂ := by
  induction r₁ generalizing r₂ with
  | nil => cases r₂ with
    | nil => rfl
    | cons c t => simp at hlen
  | cons c t ih =>
    cases r₂ with
    | nil => simp at hlen
    | cons d u =>
      have h0 := h 0
      simp only [getCell, List.getD_cons_zero] at h0
      subst h0
      have : t = u := by
        apply ih (by simpa using hlen)
        intro i
        simpa [getCell, List.getD_cons_succ] using h (i + 1)
      rw [this]

theorem listModify_append_right (f : Cell → Cell) (r t : Row) (k : Nat) :
    listModify f (r.length + k) (r ++ t) = r ++ listModify f k t := by
  induction r with
  | nil => simp
  | cons c u ih => simpa [listModify, Nat.succ_add] using ih

/-! ## findIdx lemmas -/

theorem findIdx_spec {c : String} {l : List String} {i : Nat}
    (h : findIdx c l = some i) : i < l.length ∧ l.getD i "" = c := by
  induction l generalizing i with
  | nil => simp [findIdx] at h
  | cons a t ih =>
    rw [findIdx] at h
    by_cases ha : a = c
    · rw [if_pos ha] at h
      cases h
      exact ⟨by simp, ha⟩
    · rw [if_neg ha] at h
      cases hft : findIdx c t with
      | none => rw [hft] at h; simp at h
      | some j =>
        rw [hft] at h
        simp at h
        obtain ⟨h1, h2⟩ := ih hft
        subst h
        exact ⟨by simpa using h1, by simpa [List.getD_cons_succ] using h2⟩

theorem findIdx_isSome_iff {c : String} {l : List String} :
    (findIdx c l).isSome = true ↔ c ∈ l := by
  induction l with
  | nil => simp [findIdx]
  | cons a t ih =>
    rw [findIdx]
    by_cases ha : a = c
    · simp [ha]
    · rw [if_neg ha]
      cases hft : findIdx c t with
      | none => simp [hft] at ih; simp [ih, ha, Ne.symm ha]
      | some j => simp [hft] at ih; simp [ih, ha]

theorem findIdx_eq_none_iff {c : String} {l : List String} :
    findIdx c l = none ↔ c ∉ l := by
  rw [← findIdx_isSome_iff]
  cases findIdx c l <;> simp

theorem findIdx_append_left {c : String} {l : List String} (l' : List String)
    (h : c ∈ l) : findIdx c (l ++ l') = findIdx c l := by
  induction l with
  | nil => simp at h
  | cons a t ih =>
    rw [List.cons_append, findIdx, findIdx]
    by_cases ha : a = c
    · rw [if_pos ha, if_pos ha]
    · rw [if_neg ha, if_neg ha]
      have hct : c ∈ t := by
        cases h with
        | head => exact absurd rfl ha
        | tail _ h => exact h
      rw [ih hct]

theorem findIdx_append_right {c : String} {l : List String} (l' : List String)
    (h : c ∉ l) : findIdx c (l ++ l') = (findIdx c l').map (· + l.length) := by
  induction l with
  | nil => simp
  | cons a t ih =>
    have ha : a ≠ c := fun hac => h (hac ▸ List.mem_cons_self a t)
    have hct : c ∉ t := fun hct => h (List.mem_cons_of_mem _ hct)
    rw [List.cons_append, findIdx, if_neg ha, ih hct]
    cases findIdx c l' with
    | none => rfl
    | some j => simp [List.length_cons]; omega

theorem findIdx_nodup {l : List String} (h : l.Nodup) {i : Nat}
    (hi : i < l.length) : findIdx (l.getD i "") l = some i := by
  induction l generalizing i with
  | nil => simp at hi
  | cons a t ih =>
    cases i with
    | zero => simp [findIdx]
    | succ n =>
      have hn : n < t.length := by simpa using hi
      have hmem : t.getD n "" ∈ t := by
        rw [List.getD_eq_getElem?_getD]
        have : t[n]? = some t[n] := List.getElem?_eq_getElem hn
        rw [this]
        simp
      have hne : a ≠ t.getD n "" := by
        intro han
        exact (List.nodup_cons.mp h).1 (han ▸ hmem)
      rw [List.getD_cons_succ, findIdx, if_neg hne,
        ih (List.nodup_cons.mp h).2 hn]
      rfl

theorem findIdx_inj {c c' : String} {l : List String} {i : Nat}
    (h : findIdx c l = some i) (h' : findIdx c' l = some i) : c = c' := by
  have h1 := (findIdx_spec h).2
  have h2 := (findIdx_spec h').2
  rw [← h1, ← h2]

/-! ## Deduplication lemmas -/

theorem mem_dedupAux {a : Row} {seen l : List Row} :
    a ∈ dedupAux seen l ↔ a ∈ l ∧ a ∉ seen := by
  induction l generalizing seen with
  | nil => simp [dedupAux]
  | cons r rs ih =>
    rw [dedupAux]
    by_cases hr : r ∈ seen
    · rw [if_pos hr, ih]
      constructor
      · rintro ⟨h1, h2⟩
        exact ⟨List.mem_cons_of_mem _ h1, h2⟩
      · rintro ⟨h1, h2⟩
        cases h1 with
        | head => exact absurd hr h2
        | tail _ h1 => exact ⟨h1, h2⟩
    · rw [if_neg hr]
      constructor
      · intro h
        cases h with
        | head => exact ⟨List.mem_cons_self _ _, hr⟩
        | tail _ h =>
          obtain ⟨h1, h2⟩ := ih.mp h
          refine ⟨List.mem_cons_of_mem _ h1, fun hs => h2 ?_⟩
          exact List.mem_cons_of_mem _ hs
      · rintro ⟨h1, h2⟩
        by_cases har : a = r
        · exact har ▸ List.mem_cons_self _ _
        · cases h1 with
          | head => exact absurd rfl har
          | tail _ h1 =>
            refine List.mem_cons_of_mem _ (ih.mpr ⟨h1, fun hs => ?_⟩)
            cases hs with
            | head => exact har rfl
            | tail _ hs => exact h2 hs

theorem nodup_dedupAux (seen l : List Row) : (dedupAux seen l).Nodup := by
  induction l generalizing seen with
  | nil => simp [dedupAux]
  | cons r rs ih =>
    rw [dedupAux]
    by_cases hr : r ∈ seen
    · rw [if_pos hr]; exact ih seen
    · rw [if_neg hr]
      refine List.nodup_cons.mpr ⟨fun hmem => ?_, ih (r :: seen)⟩
      exact (mem_dedupAux.mp hmem).2 (List.mem_cons_self _ _)

theorem countRow_eq_zero_of_not_mem {a : Row} {l : List Row} (h : a ∉ l) :
    countRow a l = 0 := by
  induction l with
  | nil => rfl
  | cons r rs ih =>
    have har : r ≠ a := fun hra => h (hra ▸ List.mem_cons_self _ _)
    have hat : a ∉ rs := fun hm => h (List.mem_cons_of_mem _ hm)
    simp [countRow, List.countP_cons, har] at *
    exact ih hat

theorem countRow_eq_one_of_nodup_mem {a : Row} {l : List Row} (h : l.Nodup)
    (hm : a ∈ l) : countRow a l = 1 := by
  induction l with
  | nil => simp at hm
  | cons r rs ih =>
    by_cases har : r = a
    · have hanotin : a ∉ rs := har ▸ (List.nodup_cons.mp h).1
      have h0 : countRow a rs = 0 := countRow_eq_zero_of_not_mem hanotin
      simp [countRow, List.countP_cons, har] at *
      exact h0
    · have hars : a ∈ rs := by
        cases hm with
        | head => exact absurd rfl har
        | tail _ hm => exact hm
      have h1 := ih (List.nodup_cons.mp h).2 hars
      simp [countRow, List.countP_cons, har] at *
      exact h1

theorem count_dedupAux (a : Row) (seen l : List Row) :
    countRow a (dedupAux seen l) = if a ∈ l ∧ a ∉ seen then 1 else 0 := by
  by_cases h : a ∈ l ∧ a ∉ seen
  · rw [if_pos h]
    exact countRow_eq_one_of_nodup_mem (nodup_dedupAux seen l)
      (mem_dedupAux.mpr h)
  · rw [if_neg h]
    apply countRow_eq_zero_of_not_mem
    intro hmem
    exact h (mem_dedupAux.mp hmem)

theorem dedupAux_eq_self {l : List Row} (h : l.Nodup) :
    ∀ seen, (∀ a ∈ l, a ∉ seen) → dedupAux seen l = l := by
  induction l with
  | nil => intro seen _; rfl
  | cons r rs ih =>
    intro seen hseen
    rw [dedupAux, if_neg (hseen r (List.mem_cons_self _ _))]
    congr 1
    apply ih (List.nodup_cons.mp h).2
    intro a ha
    intro hmem
    cases hmem with
    | head => exact (List.nodup_cons.mp h).1 ha
    | tail _ hmem => exact hseen a (List.mem_cons_of_mem _ ha) hmem

theorem mem_dedupRows {a : Row} {l : List Row} : a ∈ dedupRows l ↔ a ∈ l := by
  unfold dedupRows
  rw [mem_dedupAux]
  simp

theorem nodup_dedupRows (l : List Row) : (dedupRows l).Nodup :=
  nodup_dedupAux [] l

theorem count_dedupRows (a : Row) (l : List Row) :
    countRow a (dedupRows l) = if a ∈ l then 1 else 0 := by
  unfold dedupRows
  rw [count_dedupAux]
  simp

theorem dedupRows_eq_self {l : List Row} (h : l.Nodup) : dedupRows l = l :=
  dedupAux_eq_self h [] (by simp)

/-! ## Normal form of the Common Finisher -/

theorem common_eq {df : DataFrame} {PATH : String}
    (h : (uniqueCol df "Zip" && uniqueCol df "FirstName" &&
      uniqueCol df "MiddleName" && uniqueCol df "LastName" &&
      uniqueCol df "Street" && uniqueCol df "City") = true) :
    Prep.common df PATH =
      Except.ok ⟨stdCols, commonRows df.cols PATH df.rows⟩ := by
  unfold Prep.common
  rw [if_pos h]
  unfold commonRows procRow hfRow tagRow
  cases hH : findIdx "Hunt" df.cols with
  | some iH =>
    cases hF : findIdx "Fish" df.cols with
    | some iF =>
      simp only [stripAll, mapColumn, setConstCol, reindex, hfCols, hH, hF,
        List.map_map, reindexRow, Function.comp]
      rfl
    | none =>
      simp only [stripAll, mapColumn, setConstCol, reindex, hfCols, hH, hF,
        List.map_map, reindexRow, Function.comp]
      rfl
  | none =>
    cases hF : findIdx "Fish" (df.cols ++ ["Hunt"]) with
    | some iF =>
      simp only [stripAll, mapColumn, setConstCol, reindex, hfCols, hH, hF,
        List.map_map, reindexRow, Function.comp]
      rfl
    | none =>
      simp only [stripAll, mapColumn, setConstCol, reindex, hfCols, hH, hF,
        List.map_map, reindexRow, Function.comp]
      rfl

theorem common_error {df : DataFrame} {PATH : String}
    (h : ¬ ((uniqueCol df "Zip" && uniqueCol df "FirstName" &&
      uniqueCol df "MiddleName" && uniqueCol df "LastName" &&
      uniqueCol df "Street" && uniqueCol df "City") = true)) :
    Prep.common df PATH = Except.error
      "KeyError or AttributeError: required column missing or duplicated" := by
  unfold Prep.common
  rw [if_neg h]

theorem common_ok_required {df : DataFrame} {PATH : String} {out : DataFrame}
    (h : Prep.common df PATH = Except.ok out) :
    (uniqueCol df "Zip" && uniqueCol df "FirstName" &&
      uniqueCol df "MiddleName" && uniqueCol df "LastName" &&
      uniqueCol df "Street" && uniqueCol df "City") = true := by
  by_contra hc
  rw [common_error hc] at h
  cases h

theorem common_ok_shape {df : DataFrame} {PATH : String} {out : DataFrame}
    (h : Prep.common df PATH = Except.ok out) :
    out = ⟨stdCols, commonRows df.cols PATH df.rows⟩ := by
  have hce := @common_eq df PATH (common_ok_required h)
  rw [hce] at h
  cases h
  rfl

/-! ## Tracing values through the row pipeline -/

theorem getCell_listModify_self_lt {i : Nat} {r : Row} (h : i < r.length)
    (f : Cell → Cell) : getCell (listModify f i r) i = f (getCell r i) := by
  induction r generalizing i with
  | nil => simp at h
  | cons c t ih =>
    cases i with
    | zero => rfl
    | succ n =>
      simp only [listModify, getCell, List.getD_cons_succ]
      exact ih (by simpa using h) 

theorem getCell_modifyAt?_name {cols : List String} {d c : String} {i : Nat}
    (hc : findIdx c cols = some i) {f : Cell → Cell} (hf : f Cell.na = Cell.na)
    (r : Row) :
    getCell (modifyAt? (findIdx d cols) f r) i =
      if d = c then f (getCell r i) else getCell r i := by
  by_cases hdc : d = c
  · subst hdc
    rw [hc, if_pos rfl]
    simp only [modifyAt?]
    exact getCell_listModify_self hf i r
  · rw [if_neg hdc]
    cases hd : findIdx d cols with
    | none => rfl
    | some j =>
      have hij : i ≠ j := by
        intro hij
        apply hdc
        have hc' : findIdx c cols = some j := by rw [← hij]; exact hc
        exact findIdx_inj hd hc'
      simp only [modifyAt?]
      exact getCell_listModify_ne hij f r

theorem procRow_length (cols : List String) (r : Row) :
    (procRow cols r).length = r.length := by
  unfold procRow
  have h : ∀ (i? : Option Nat) (f : Cell → Cell) (x : Row),
      (modifyAt? i? f x).length = x.length := by
    intro i? f x
    cases i? with
    | none => rfl
    | some i => exact listModify_length f i x
  simp [h]

theorem procRow_zip {cols : List String} {i : Nat}
    (hc : findIdx "Zip" cols = some i) (r : Row) :
    getCell (procRow cols r) i = zfillCell (stripCell (getCell r i)) := by
  unfold procRow
  rw [getCell_modifyAt?_name hc (by rfl), getCell_modifyAt?_name hc (by rfl),
    getCell_modifyAt?_name hc (by rfl), getCell_modifyAt?_name hc (by rfl),
    getCell_modifyAt?_name hc (by rfl), getCell_modifyAt?_name hc (by rfl),
    getCell_map (by rfl)]
  simp

theorem procRow_first {cols : List String} {i : Nat}
    (hc : findIdx "FirstName" cols = some i) (r : Row) :
    getCell (procRow cols r) i = titleCell (stripCell (getCell r i)) := by
  unfold procRow
  rw [getCell_modifyAt?_name hc (by rfl), getCell_modifyAt?_name hc (by rfl),
    getCell_modifyAt?_name hc (by rfl), getCell_modifyAt?_name hc (by rfl),
    getCell_modifyAt?_name hc (by rfl), getCell_modifyAt?_name hc (by rfl),
    getCell_map (by rfl)]
  simp

theorem procRow_middle {cols : List String} {i : Nat}
    (hc : findIdx "MiddleName" cols = some i) (r : Row) :
    getCell (procRow cols r) i = titleCell (stripCell (getCell r i)) := by
  unfold procRow
  rw [getCell_modifyAt?_name hc (by rfl), getCell_modifyAt?_name hc (by rfl),
    getCell_modifyAt?_name hc (by rfl), getCell_modifyAt?_name hc (by rfl),
    getCell_modifyAt?_name hc (by rfl), getCell_modifyAt?_name hc (by rfl),
    getCell_map (by rfl)]
  simp

theorem procRow_last {cols : List String} {i : Nat}
    (hc : findIdx "LastName" cols = some i) (r : Row) :
    getCell (procRow cols r) i = titleCell (stripCell (getCell r i)) := by
  unfold procRow
  rw [getCell_modifyAt?_name hc (by rfl), getCell_modifyAt?_name hc (by rfl),
    getCell_modifyAt?_name hc (by rfl), getCell_modifyAt?_name hc (by rfl),
    getCell_modifyAt?_name hc (by rfl), getCell_modifyAt?_name hc (by rfl),
    getCell_map (by rfl)]
  simp

theorem procRow_street {cols : List String} {i : Nat}
    (hc : findIdx "Street" cols = some i) (r : Row) :
    getCell (procRow cols r) i = titleCell (stripCell (getCell r i)) := by
  unfold procRow
  rw [getCell_modifyAt?_name hc (by rfl), getCell_modifyAt?_name hc (by rfl),
    getCell_modifyAt?_name hc (by rfl), getCell_modifyAt?_name hc (by rfl),
    getCell_modifyAt?_name hc (by rfl), getCell_modifyAt?_name hc (by rfl),
    getCell_map (by rfl)]
  simp

theorem procRow_city {cols : List String} {i : Nat}
    (hc : findIdx "City" cols = some i) (r : Row) :
    getCell (procRow cols r) i = titleCell (stripCell (getCell r i)) := by
  unfold procRow
  rw [getCell_modifyAt?_name hc (by rfl), getCell_modifyAt?_name hc (by rfl),
    getCell_modifyAt?_name hc (by rfl), getCell_modifyAt?_name hc (by rfl),
    getCell_modifyAt?_name hc (by rfl), getCell_modifyAt?_name hc (by rfl),
    getCell_map (by rfl)]
  simp

theorem procRow_other {cols : List String} {c : String} {i : Nat}
    (hc : findIdx c cols = some i) (h1 : c ≠ "Zip") (h2 : c ≠ "FirstName")
    (h3 : c ≠ "MiddleName") (h4 : c ≠ "LastName") (h5 : c ≠ "Street")
    (h6 : c ≠ "City") (r : Row) :
    getCell (procRow cols r) i = stripCell (getCell r i) := by
  unfold procRow
  rw [getCell_modifyAt?_name hc (by rfl), getCell_modifyAt?_name hc (by rfl),
    getCell_modifyAt?_name hc (by rfl), getCell_modifyAt?_name hc (by rfl),
    getCell_modifyAt?_name hc (by rfl), getCell_modifyAt?_name hc (by rfl),
    getCell_map (by rfl)]
  rw [if_neg (Ne.symm h6), if_neg (Ne.symm h5), if_neg (Ne.symm h4),
    if_neg (Ne.symm h3), if_neg (Ne.symm h2), if_neg (Ne.symm h1)]

theorem findIdx_hunt_single : findIdx "Hunt" ["Hunt"] = some 0 := by decide

theorem findIdx_fish_single : findIdx "Fish" ["Fish"] = some 0 := by decide

theorem tag_value_hunt {cols : List String} (PATH : String) {m : Row}
    (hm : m.length = cols.length) :
    lookupCell (hfCols cols) (tagRow cols PATH (hfRow cols m)) "Hunt" =
      Cell.str (if strContains PATH "Hunt" = true then "Y" else "") := by
  cases hH : findIdx "Hunt" cols with
  | some iH =>
    have hspecH := findIdx_spec hH
    cases hF : findIdx "Fish" cols with
    | some iF =>
      have hne : iH ≠ iF := by
        intro he
        have hf' : findIdx "Fish" cols = some iH := by rw [he]; exact hF
        exact absurd (findIdx_inj hH hf') (by decide)
      have hfc : hfCols cols = cols := by unfold hfCols; simp only [hH, hF]
      have hfr : hfRow cols m =
          listModify (fun _ => Cell.str "") iF
            (listModify (fun _ => Cell.str "") iH m) := by
        unfold hfRow; simp only [hH, hF]
      have hl1 : iH < (listModify (fun _ => Cell.str "") iF
          (listModify (fun _ => Cell.str "") iH m)).length := by
        rw [listModify_length, listModify_length, hm]; exact hspecH.1
      have hl2 : iH < m.length := by rw [hm]; exact hspecH.1
      simp only [tagRow, lookupCell, hfc, hfr, hH, hF, modifyAt?]
      rw [getCell_listModify_ne hne, getCell_listModify_self_lt hl1,
        getCell_listModify_ne hne, getCell_listModify_self_lt hl2]
      by_cases hp : strContains PATH "Hunt" = true <;> simp [hp]
    | none =>
      have hnotF : "Fish" ∉ cols := findIdx_eq_none_iff.mp hF
      have hmemH : "Hunt" ∈ cols := findIdx_isSome_iff.mp (by rw [hH]; rfl)
      have hfc : hfCols cols = cols ++ ["Fish"] := by
        unfold hfCols; simp only [hH, hF]
      have hfr : hfRow cols m =
          listModify (fun _ => Cell.str "") iH m ++ [Cell.str ""] := by
        unfold hfRow; simp only [hH, hF]
      have hHidx : findIdx "Hunt" (cols ++ ["Fish"]) = some iH := by
        rw [findIdx_append_left _ hmemH]; exact hH
      have hFidx : findIdx "Fish" (cols ++ ["Fish"]) = some cols.length := by
        rw [findIdx_append_right _ hnotF, findIdx_fish_single]
        simp
      have hneH : iH ≠ cols.length := Nat.ne_of_lt hspecH.1
      have hl1 : iH < (listModify (fun _ => Cell.str "") iH m ++
          [Cell.str ""]).length := by
        rw [List.length_append, listModify_length, hm]
        simp
        omega
      have hl2 : iH < (listModify (fun _ => Cell.str "") iH m).length := by
        rw [listModify_length, hm]; exact hspecH.1
      have hl3 : iH < m.length := by rw [hm]; exact hspecH.1
      simp only [tagRow, lookupCell, hfc, hfr, hHidx, hFidx, modifyAt?]
      rw [getCell_listModify_ne hneH, getCell_listModify_self_lt hl1,
        getCell_append_lt hl2, getCell_listModify_self_lt hl3]
      by_cases hp : strContains PATH "Hunt" = true <;> simp [hp]
  | none =>
    have hnotH : "Hunt" ∉ cols := findIdx_eq_none_iff.mp hH
    cases hF : findIdx "Fish" (cols ++ ["Hunt"]) with
    | some iF =>
      have hspecF := findIdx_spec hF
      have hFne : iF ≠ cols.length := by
        intro he
        have := hspecF.2
        rw [he] at this
        rw [List.getD_append_right _ _ _ _ (Nat.le_refl _)] at this
        simp at this
      have hFlt : iF < cols.length := by
        have := hspecF.1
        simp at this
        omega
      have hfc : hfCols cols = cols ++ ["Hunt"] := by
        unfold hfCols; simp only [hH, hF]
      have hfr : hfRow cols m =
          listModify (fun _ => Cell.str "") iF (m ++ [Cell.str ""]) := by
        unfold hfRow; simp only [hH, hF]
      have hHidx : findIdx "Hunt" (cols ++ ["Hunt"]) = some cols.length := by
        rw [findIdx_append_right _ hnotH, findIdx_hunt_single]
        simp
      have hneH : cols.length ≠ iF := fun he => hFne he.symm
      have hl1 : cols.length <
          (listModify (fun _ => Cell.str "") iF (m ++ [Cell.str ""])).length := by
        rw [listModify_length, List.length_append, hm]
        simp
      simp only [tagRow, lookupCell, hfc, hfr, hHidx, hF, modifyAt?]
      rw [getCell_listModify_ne hneH, getCell_listModify_self_lt hl1,
        getCell_listModify_ne hneH]
      have hmz : cols.length = m.length + 0 := by omega
      rw [hmz, getCell_append_right]
      by_cases hp : strContains PATH "Hunt" = true <;> simp [hp, getCell]
    | none =>
      have hfc : hfCols cols = cols ++ ["Hunt"] ++ ["Fish"] := by
        unfold hfCols; simp only [hH, hF]
      have hfr : hfRow cols m =
          (m ++ [Cell.str ""]) ++ [Cell.str ""] := by
        unfold hfRow; simp only [hH, hF]
      have hnotF : "Fish" ∉ cols ++ ["Hunt"] := findIdx_eq_none_iff.mp hF
      have hHidx : findIdx "Hunt" (cols ++ ["Hunt"] ++ ["Fish"]) =
          some cols.length := by
        rw [findIdx_append_left]
        · rw [findIdx_append_right _ hnotH, findIdx_hunt_single]
          simp
        · simp
      have hFidx : findIdx "Fish" (cols ++ ["Hunt"] ++ ["Fish"]) =
          some (cols.length + 1) := by
        rw [findIdx_append_right _ hnotF, findIdx_fish_single]
        simp
      have hneHF : cols.length ≠ cols.length + 1 := by omega
      have hl1 : cols.length <
          ((m ++ [Cell.str ""]) ++ [Cell.str ""]).length := by
        simp [hm]
      have hl2 : cols.length < (m ++ [Cell.str ""]).length := by
        simp [hm]
      simp only [tagRow, lookupCell, hfc, hfr, hHidx, hFidx, modifyAt?]
      rw [getCell_listModify_ne hneHF, getCell_listModify_self_lt hl1,
        getCell_append_lt hl2]
      have hmz : cols.length = m.length + 0 := by omega
      rw [hmz, getCell_append_right]
      by_cases hp : strContains PATH "Hunt" = true <;> simp [hp, getCell]

theorem tag_value_fish {cols : List String} (PATH : String) {m : Row}
    (hm : m.length = cols.length) :
    lookupCell (hfCols cols) (tagRow cols PATH (hfRow cols m)) "Fish" =
      Cell.str (if strContains PATH "Fish" = true then "Y" else "") := by
  cases hH : findIdx "Hunt" cols with
  | some iH =>
    have hspecH := findIdx_spec hH
    cases hF : findIdx "Fish" cols with
    | some iF =>
      have hspecF := findIdx_spec hF
      have hne : iF ≠ iH := by
        intro he
        have hf' : findIdx "Fish" cols = some iH := by rw [← he]; exact hF
        exact absurd (findIdx_inj hH hf') (by decide)
      have hfc : hfCols cols = cols := by unfold hfCols; simp only [hH, hF]
      have hfr : hfRow cols m =
          listModify (fun _ => Cell.str "") iF
            (listModify (fun _ => Cell.str "") iH m) := by
        unfold hfRow; simp only [hH, hF]
      have hl1 : iF < (listModify
          (fun x => if strContains PATH "Hunt" = true then Cell.str "Y" else x) iH
          (listModify (fun _ => Cell.str "") iF
            (listModify (fun _ => Cell.str "") iH m))).length := by
        rw [listModify_length, listModify_length, listModify_length, hm]
        exact hspecF.1
      have hl2 : iF < (listModify (fun _ => Cell.str "") iH m).length := by
        rw [listModify_length, hm]; exact hspecF.1
      simp only [tagRow, lookupCell, hfc, hfr, hH, hF, modifyAt?]
      rw [getCell_listModify_self_lt hl1, getCell_listModify_ne hne,
        getCell_listModify_self_lt hl2]
      by_cases hp : strContains PATH "Fish" = true <;> simp [hp]
    | none =>
      have hnotF : "Fish" ∉ cols := findIdx_eq_none_iff.mp hF
      have hmemH : "Hunt" ∈ cols := findIdx_isSome_iff.mp (by rw [hH]; rfl)
      have hfc : hfCols cols = cols ++ ["Fish"] := by
        unfold hfCols; simp only [hH, hF]
      have hfr : hfRow cols m =
          listModify (fun _ => Cell.str "") iH m ++ [Cell.str ""] := by
        unfold hfRow; simp only [hH, hF]
      have hHidx : findIdx "Hunt" (cols ++ ["Fish"]) = some iH := by
        rw [findIdx_append_left _ hmemH]; exact hH
      have hFidx : findIdx "Fish" (cols ++ ["Fish"]) = some cols.length := by
        rw [findIdx_append_right _ hnotF, findIdx_fish_single]
        simp
      have hneH : cols.length ≠ iH := (Nat.ne_of_lt hspecH.1).symm
      have hl1 : cols.length < (listModify
          (fun x => if strContains PATH "Hunt" = true then Cell.str "Y" else x) iH
          (listModify (fun _ => Cell.str "") iH m ++ [Cell.str ""])).length := by
        rw [listModify_length, List.length_append, listModify_length, hm]
        simp
      simp only [tagRow, lookupCell, hfc, hfr, hHidx, hFidx, modifyAt?]
      rw [getCell_listModify_self_lt hl1, getCell_listModify_ne hneH]
      have hmz : cols.length = (listModify (fun _ => Cell.str "") iH m).length + 0 := by
        rw [listModify_length, hm]
        omega
      rw [hmz, getCell_append_right]
      by_cases hp : strContains PATH "Fish" = true <;> simp [hp, getCell]
  | none =>
    have hnotH : "Hunt" ∉ cols := findIdx_eq_none_iff.mp hH
    cases hF : findIdx "Fish" (cols ++ ["Hunt"]) with
    | some iF =>
      have hspecF := findIdx_spec hF
      have hFne : iF ≠ cols.length := by
        intro he
        have := hspecF.2
        rw [he] at this
        rw [List.getD_append_right _ _ _ _ (Nat.le_refl _)] at this
        simp at this
      have hFlt : iF < cols.length := by
        have := hspecF.1
        simp at this
        omega
      have hfc : hfCols cols = cols ++ ["Hunt"] := by
        unfold hfCols; simp only [hH, hF]
      have hfr : hfRow cols m =
          listModify (fun _ => Cell.str "") iF (m ++ [Cell.str ""]) := by
        unfold hfRow; simp only [hH, hF]
      have hHidx : findIdx "Hunt" (cols ++ ["Hunt"]) = some cols.length := by
        rw [findIdx_append_right _ hnotH, findIdx_hunt_single]
        simp
      have hl1 : iF < (listModify
          (fun x => if strContains PATH "Hunt" = true then Cell.str "Y" else x)
          cols.length
          (listModify (fun _ => Cell.str "") iF (m ++ [Cell.str ""]))).length := by
        rw [listModify_length, listModify_length, List.length_append, hm]
        simp
        omega
      have hl2 : iF < (m ++ [Cell.str ""]).length := by
        rw [List.length_append, hm]
        simp
        omega
      simp only [tagRow, lookupCell, hfc, hfr, hHidx, hF, modifyAt?]
      rw [getCell_listModify_self_lt hl1, getCell_listModify_ne hFne,
        getCell_listModify_self_lt hl2]
      by_cases hp : strContains PATH "Fish" = true <;> simp [hp]
    | none =>
      have hfc : hfCols cols = cols ++ ["Hunt"] ++ ["Fish"] := by
        unfold hfCols; simp only [hH, hF]
      have hfr : hfRow cols m =
          (m ++ [Cell.str ""]) ++ [Cell.str ""] := by
        unfold hfRow; simp only [hH, hF]
      have hnotF : "Fish" ∉ cols ++ ["Hunt"] := findIdx_eq_none_iff.mp hF
      have hHidx : findIdx "Hunt" (cols ++ ["Hunt"] ++ ["Fish"]) =
          some cols.length := by
        rw [findIdx_append_left]
        · rw [findIdx_append_right _ hnotH, findIdx_hunt_single]
          simp
        · simp
      have hFidx : findIdx "Fish" (cols ++ ["Hunt"] ++ ["Fish"]) =
          some (cols.length + 1) := by
        rw [findIdx_append_right _ hnotF, findIdx_fish_single]
        simp
      have hneHF : cols.length + 1 ≠ cols.length := by omega
      have hl1 : cols.length + 1 < (listModify
          (fun x => if strContains PATH "Hunt" = true then Cell.str "Y" else x)
          cols.length
          ((m ++ [Cell.str ""]) ++ [Cell.str ""])).length := by
        rw [listModify_length]
        simp [hm]
      simp only [tagRow, lookupCell, hfc, hfr, hHidx, hFidx, modifyAt?]
      rw [getCell_listModify_self_lt hl1, getCell_listModify_ne hneHF]
      have hmz : cols.length + 1 = (m ++ [Cell.str ""]).length + 0 := by
        rw [List.length_append, hm]
        simp
      rw [hmz, getCell_append_right]
      by_cases hp : strContains PATH "Fish" = true <;> simp [hp, getCell]

theorem tag_value_other {cols : List String} (PATH : String) {m : Row}
    {c : String} {i : Nat} (hm : m.length = cols.length)
    (hc : findIdx c cols = some i) (hcH : c ≠ "Hunt") (hcF : c ≠ "Fish") :
    lookupCell (hfCols cols) (tagRow cols PATH (hfRow cols m)) c =
      getCell m i := by
  have hspec := findIdx_spec hc
  have hmem : c ∈ cols := findIdx_isSome_iff.mp (by rw [hc]; rfl)
  have hilt : i < m.length := by rw [hm]; exact hspec.1
  cases hH : findIdx "Hunt" cols with
  | some iH =>
    have hneiH : i ≠ iH := by
      intro he
      have h' : findIdx c cols = some iH := by rw [← he]; exact hc
      exact hcH (findIdx_inj h' hH)
    cases hF : findIdx "Fish" cols with
    | some iF =>
      have hneiF : i ≠ iF := by
        intro he
        have h' : findIdx c cols = some iF := by rw [← he]; exact hc
        exact hcF (findIdx_inj h' hF)
      have hfc : hfCols cols = cols := by unfold hfCols; simp only [hH, hF]
      have hfr : hfRow cols m =
          listModify (fun _ => Cell.str "") iF
            (listModify (fun _ => Cell.str "") iH m) := by
        unfold hfRow; simp only [hH, hF]
      simp only [tagRow, lookupCell, hfc, hfr, hH, hF, hc, modifyAt?]
      rw [getCell_listModify_ne hneiF, getCell_listModify_ne hneiH,
        getCell_listModify_ne hneiF, getCell_listModify_ne hneiH]
    | none =>
      have hnotF : "Fish" ∉ cols := findIdx_eq_none_iff.mp hF
      have hmemH : "Hunt" ∈ cols := findIdx_isSome_iff.mp (by rw [hH]; rfl)
      have hfc : hfCols cols = cols ++ ["Fish"] := by
        unfold hfCols; simp only [hH, hF]
      have hfr : hfRow cols m =
          listModify (fun _ => Cell.str "") iH m ++ [Cell.str ""] := by
        unfold hfRow; simp only [hH, hF]
      have hHidx : findIdx "Hunt" (cols ++ ["Fish"]) = some iH := by
        rw [findIdx_append_left _ hmemH]; exact hH
      have hFidx : findIdx "Fish" (cols ++ ["Fish"]) = some cols.length := by
        rw [findIdx_append_right _ hnotF, findIdx_fish_single]
        simp
      have hcidx : findIdx c (cols ++ ["Fish"]) = some i := by
        rw [findIdx_append_left _ hmem]; exact hc
      have hnein : i ≠ cols.length := Nat.ne_of_lt hspec.1
      have hlr1 : i < (listModify (fun _ => Cell.str "") iH m).length := by
        rw [listModify_length]; exact hilt
      simp only [tagRow, lookupCell, hfc, hfr, hHidx, hFidx, hcidx, modifyAt?]
      rw [getCell_listModify_ne hnein, getCell_listModify_ne hneiH,
        getCell_append_lt hlr1, getCell_listModify_ne hneiH]
  | none =>
    have hnotH : "Hunt" ∉ cols := findIdx_eq_none_iff.mp hH
    have hnein : i ≠ cols.length := Nat.ne_of_lt hspec.1
    cases hF : findIdx "Fish" (cols ++ ["Hunt"]) with
    | some iF =>
      have hcidxH : findIdx c (cols ++ ["Hunt"]) = some i := by
        rw [findIdx_append_left _ hmem]; exact hc
      have hneiF : i ≠ iF := by
        intro he
        have h' : findIdx c (cols ++ ["Hunt"]) = some iF := by
          rw [← he]; exact hcidxH
        exact hcF (findIdx_inj h' hF)
      have hfc : hfCols cols = cols ++ ["Hunt"] := by
        unfold hfCols; simp only [hH, hF]
      have hfr : hfRow cols m =
          listModify (fun _ => Cell.str "") iF (m ++ [Cell.str ""]) := by
        unfold hfRow; simp only [hH, hF]
      have hHidx : findIdx "Hunt" (cols ++ ["Hunt"]) = some cols.length := by
        rw [findIdx_append_right _ hnotH, findIdx_hunt_single]
        simp
      simp only [tagRow, lookupCell, hfc, hfr, hHidx, hF, hcidxH, modifyAt?]
      rw [getCell_listModify_ne hneiF, getCell_listModify_ne hnein,
        getCell_listModify_ne hneiF, getCell_append_lt hilt]
    | none =>
      have hnotF : "Fish" ∉ cols ++ ["Hunt"] := findIdx_eq_none_iff.mp hF
      have hfc : hfCols cols = cols ++ ["Hunt"] ++ ["Fish"] := by
        unfold hfCols; simp only [hH, hF]
      have hfr : hfRow cols m =
          (m ++ [Cell.str ""]) ++ [Cell.str ""] := by
        unfold hfRow; simp only [hH, hF]
      have hHidx : findIdx "Hunt" (cols ++ ["Hunt"] ++ ["Fish"]) =
          some cols.length := by
        rw [findIdx_append_left]
        · rw [findIdx_append_right _ hnotH, findIdx_hunt_single]
          simp
        · simp
      have hFidx : findIdx "Fish" (cols ++ ["Hunt"] ++ ["Fish"]) =
          some (cols.length + 1) := by
        rw [findIdx_append_right _ hnotF, findIdx_fish_single]
        simp
      have hcidx : findIdx c (cols ++ ["Hunt"] ++ ["Fish"]) = some i := by
        rw [findIdx_append_left, findIdx_append_left _ hmem]
        · exact hc
        · exact List.mem_append_left _ hmem
      have hnein1 : i ≠ cols.length + 1 := by omega
      have hlm1 : i < (m ++ [Cell.str ""]).length := by
        rw [List.length_append]
        omega
      simp only [tagRow, lookupCell, hfc, hfr, hHidx, hFidx, hcidx, modifyAt?]
      rw [getCell_listModify_ne hnein1, getCell_listModify_ne hnein,
        getCell_append_lt hlm1, getCell_append_lt hilt]

theorem tag_value_none {cols : List String} (PATH : String) (m : Row)
    {c : String} (hc : findIdx c cols = none) (hcH : c ≠ "Hunt")
    (hcF : c ≠ "Fish") :
    lookupCell (hfCols cols) (tagRow cols PATH (hfRow cols m)) c = Cell.na := by
  have hnot : c ∉ cols := findIdx_eq_none_iff.mp hc
  have hext : ∀ ext : List String, findIdx c ["Hunt"] = none →
      True := fun _ _ => trivial
  have hnotH1 : findIdx c ["Hunt"] = none := by
    simp [findIdx, Ne.symm hcH]
  have hnotF1 : findIdx c ["Fish"] = none := by
    simp [findIdx, Ne.symm hcF]
  cases hH : findIdx "Hunt" cols with
  | some iH =>
    cases hF : findIdx "Fish" cols with
    | some iF =>
      have hfc : hfCols cols = cols := by unfold hfCols; simp only [hH, hF]
      simp only [lookupCell, hfc, hc]
    | none =>
      have hfc : hfCols cols = cols ++ ["Fish"] := by
        unfold hfCols; simp only [hH, hF]
      have hcidx : findIdx c (cols ++ ["Fish"]) = none := by
        rw [findIdx_append_right _ hnot, hnotF1]
        rfl
      simp only [lookupCell, hfc, hcidx]
  | none =>
    cases hF : findIdx "Fish" (cols ++ ["Hunt"]) with
    | some iF =>
      have hfc : hfCols cols = cols ++ ["Hunt"] := by
        unfold hfCols; simp only [hH, hF]
      have hcidx : findIdx c (cols ++ ["Hunt"]) = none := by
        rw [findIdx_append_right _ hnot, hnotH1]
        rfl
      simp only [lookupCell, hfc, hcidx]
    | none =>
      have hfc : hfCols cols = cols ++ ["Hunt"] ++ ["Fish"] := by
        unfold hfCols; simp only [hH, hF]
      have hcidx0 : findIdx c (cols ++ ["Hunt"]) = none := by
        rw [findIdx_append_right _ hnot, hnotH1]
        rfl
      have hcidx : findIdx c (cols ++ ["Hunt"] ++ ["Fish"]) = none := by
        rw [findIdx_append_right _ (findIdx_eq_none_iff.mp hcidx0), hnotF1]
        rfl
      simp only [lookupCell, hfc, hcidx]

/-! ## Bridges between output rows and their source rows -/

theorem getCell_map_names {g : String → Cell} {nc : List String} {c : String}
    {j : Nat} (h : findIdx c nc = some j) : getCell (nc.map g) j = g c := by
  induction nc generalizing j with
  | nil => simp [findIdx] at h
  | cons a t ih =>
    rw [findIdx] at h
    by_cases ha : a = c
    · rw [if_pos ha] at h
      cases h
      rw [ha]
      rfl
    · rw [if_neg ha] at h
      cases hft : findIdx c t with
      | none => rw [hft] at h; simp at h
      | some j' =>
        rw [hft] at h
        simp at h
        subst h
        simpa [getCell, List.getD_cons_succ] using ih hft

theorem lookup_reindexRow {cols' newCols : List String} {c : String} {j : Nat}
    (h : findIdx c newCols = some j) (m : Row) :
    lookupCell newCols (reindexRow cols' newCols m) c = lookupCell cols' m c := by
  unfold lookupCell reindexRow
  rw [h]
  exact getCell_map_names h

theorem mem_commonRows {cols : List String} {PATH : String} {rows : List Row}
    {r : Row} (h : r ∈ commonRows cols PATH rows) :
    ∃ r₀ ∈ rows, r = reindexRow (hfCols cols) stdCols
      (tagRow cols PATH (hfRow cols (procRow cols r₀))) := by
  unfold commonRows at h
  obtain ⟨m, hm, hr⟩ := List.mem_map.mp h
  obtain ⟨r₀, h₀, hp⟩ := List.mem_map.mp (mem_dedupRows.mp hm)
  exact ⟨r₀, h₀, by rw [← hr, ← hp]⟩

theorem length_commonRows {cols : List String} {PATH : String}
    {rows : List Row} {r : Row} (h : r ∈ commonRows cols PATH rows) :
    r.length = stdCols.length := by
  obtain ⟨r₀, _, hre⟩ := mem_commonRows h
  rw [hre]
  simp [reindexRow]

theorem hasCol_some {df : DataFrame} {c : String} (h : hasCol df c = true) :
    ∃ i, findIdx c df.cols = some i := by
  unfold hasCol at h
  cases hf : findIdx c df.cols with
  | none => rw [hf] at h; simp at h
  | some i => exact ⟨i, rfl⟩

theorem countP_one_of_nodup_mem {α : Type} [DecidableEq α] {a : α}
    {l : List α} (hnd : l.Nodup) (hm : a ∈ l) :
    l.countP (fun x => decide (x = a)) = 1 := by
  induction l with
  | nil => cases hm
  | cons b t ih =>
    rw [List.countP_cons]
    rcases List.mem_cons.mp hm with he | ht
    · subst he
      have hnt : a ∉ t := (List.nodup_cons.mp hnd).1
      have h0 : t.countP (fun x => decide (x = a)) = 0 :=
        List.countP_eq_zero.mpr (fun x hx => by
          simp only [decide_eq_true_eq]
          intro hxa
          exact hnt (hxa ▸ hx))
      simp [h0]
    · have hba : ¬ b = a := by
        intro he
        exact (List.nodup_cons.mp hnd).1 (he ▸ ht)
      rw [ih (List.nodup_cons.mp hnd).2 ht]
      simp [hba]

theorem uniqueCol_count {df : DataFrame} {c : String}
    (h : uniqueCol df c = true) :
    df.cols.countP (fun c' => decide (c' = c)) = 1 := by
  unfold uniqueCol at h
  exact of_decide_eq_true h

theorem uniqueCol_of_count {df : DataFrame} {c : String}
    (h : df.cols.countP (fun c' => decide (c' = c)) = 1) :
    uniqueCol df c = true := by
  unfold uniqueCol
  exact decide_eq_true h

theorem uniqueCol_mem {df : DataFrame} {c : String}
    (h : uniqueCol df c = true) : c ∈ df.cols := by
  have h1 := uniqueCol_count h
  have hpos : 0 < df.cols.countP (fun c' => decide (c' = c)) := by omega
  obtain ⟨a, ha, he⟩ := List.countP_pos_iff.mp hpos
  simp only [decide_eq_true_eq] at he
  exact he ▸ ha

theorem uniqueCol_some {df : DataFrame} {c : String}
    (h : uniqueCol df c = true) : ∃ i, findIdx c df.cols = some i := by
  have hm := uniqueCol_mem h
  cases hf : findIdx c df.cols with
  | none => exact absurd (findIdx_eq_none_iff.mp hf) (by simp [hm])
  | some j => exact ⟨j, rfl⟩

theorem uniqueCol_hasCol {df : DataFrame} {c : String}
    (h : uniqueCol df c = true) : hasCol df c = true := by
  obtain ⟨i, hi⟩ := uniqueCol_some h
  unfold hasCol
  rw [hi]
  rfl

theorem getCell_ge {r : Row} {i : Nat} (h : r.length ≤ i) :
    getCell r i = Cell.na :=
  List.getD_eq_default _ _ h

theorem getD_mem {l : List String} {i : Nat} (h : i < l.length) :
    l.getD i "" ∈ l := by
  rw [List.getD_eq_getElem?_getD, List.getElem?_eq_getElem h]
  simp

theorem map_eq_self_of {α : Type} {f : α → α} {l : List α}
    (h : ∀ x ∈ l, f x = x) : l.map f = l := by
  induction l with
  | nil => rfl
  | cons a t ih =>
    rw [List.map_cons, h a (List.mem_cons_self _ _),
      ih (fun x hx => h x (List.mem_cons_of_mem _ hx))]

theorem findIdx_mem_some {c : String} {l : List String} (h : c ∈ l) :
    ∃ j, findIdx c l = some j := by
  cases hf : findIdx c l with
  | none => exact absurd (findIdx_eq_none_iff.mp hf) (by simp [h])
  | some j => exact ⟨j, rfl⟩

theorem countRow_pos {a : Row} {l : List Row} (h : 0 < countRow a l) :
    a ∈ l := by
  obtain ⟨x, hx, he⟩ := List.countP_pos_iff.mp h
  simp at he
  exact he ▸ hx

theorem countRow_map_inj {f : Row → Row} {l : List Row} {a : Row}
    (hnd : l.Nodup) (ha : a ∈ l) (hinj : ∀ x ∈ l, f x = f a → x = a) :
    countRow (f a) (l.map f) = 1 := by
  unfold countRow
  rw [List.countP_map]
  have : List.countP ((fun r => decide (r = f a)) ∘ f) l =
      List.countP (fun r => decide (r = a)) l := by
    apply List.countP_congr
    intro x hx
    simp only [Function.comp]
    constructor
    · intro hfx
      simp at hfx ⊢
      exact hinj x hx hfx
    · intro hxa
      simp at hxa ⊢
      rw [hxa]
  rw [this]
  exact countRow_eq_one_of_nodup_mem hnd ha

theorem reindexRow_self {cols : List String} {r : Row} (hnd : cols.Nodup)
    (hlen : r.length = cols.length) : reindexRow cols cols r = r := by
  apply rowExt
  · simp [reindexRow, hlen]
  · intro i
    by_cases hi : i < cols.length
    · have hc : findIdx (cols.getD i "") cols = some i := findIdx_nodup hnd hi
      rw [show getCell (reindexRow cols cols r) i =
          lookupCell cols r (cols.getD i "") from getCell_map_names hc]
      unfold lookupCell
      rw [hc]
    · rw [getCell_ge (by simpa [reindexRow] using Nat.le_of_not_lt hi),
        getCell_ge (by omega)]

theorem reindex_self {df : DataFrame} (hnd : df.cols.Nodup)
    (hwf : df.WF) : reindex df df.cols = df := by
  unfold reindex
  cases df with
  | mk cols rows =>
    simp only [DataFrame.mk.injEq, true_and]
    exact map_eq_self_of (fun r hr => reindexRow_self hnd (hwf r hr))

theorem postRow_inj {cols : List String} {PATH : String} {m₁ m₂ : Row}
    (hnd : cols.Nodup) (hsub : ∀ c ∈ cols, c ∈ std8)
    (h1 : m₁.length = cols.length) (h2 : m₂.length = cols.length)
    (heq : reindexRow (hfCols cols) stdCols (tagRow cols PATH (hfRow cols m₁)) =
      reindexRow (hfCols cols) stdCols (tagRow cols PATH (hfRow cols m₂))) :
    m₁ = m₂ := by
  apply rowExt (by rw [h1, h2])
  intro i
  by_cases hi : i < cols.length
  · have hc : findIdx (cols.getD i "") cols = some i := findIdx_nodup hnd hi
    have hmemstd : cols.getD i "" ∈ std8 := hsub _ (getD_mem hi)
    have hcH : cols.getD i "" ≠ "Hunt" := by
      intro he
      rw [he] at hmemstd
      exact absurd hmemstd (by decide)
    have hcF : cols.getD i "" ≠ "Fish" := by
      intro he
      rw [he] at hmemstd
      exact absurd hmemstd (by decide)
    have hmem10 : cols.getD i "" ∈ stdCols := by
      have : ∀ c ∈ std8, c ∈ stdCols := by decide
      exact this _ hmemstd
    obtain ⟨j, hj⟩ := findIdx_mem_some hmem10
    have e1 : lookupCell stdCols
        (reindexRow (hfCols cols) stdCols (tagRow cols PATH (hfRow cols m₁)))
        (cols.getD i "") =
        lookupCell (hfCols cols) (tagRow cols PATH (hfRow cols m₁))
          (cols.getD i "") := lookup_reindexRow hj _
    have e2 : lookupCell stdCols
        (reindexRow (hfCols cols) stdCols (tagRow cols PATH (hfRow cols m₂)))
        (cols.getD i "") =
        lookupCell (hfCols cols) (tagRow cols PATH (hfRow cols m₂))
          (cols.getD i "") := lookup_reindexRow hj _
    have heval : lookupCell (hfCols cols) (tagRow cols PATH (hfRow cols m₁))
        (cols.getD i "") =
        lookupCell (hfCols cols) (tagRow cols PATH (hfRow cols m₂))
          (cols.getD i "") := by
      rw [← e1, ← e2, heq]
    rw [tag_value_other PATH h1 hc hcH hcF,
      tag_value_other PATH h2 hc hcH hcF] at heval
    exact heval
  · rw [getCell_ge (by omega), getCell_ge (by omega)]

/-! ## Claim theorems -/

/-- C7: for every input record set and path, a successful run of the Common
Finisher produces a frame whose columns are exactly the ten standard columns
`[FirstName, MiddleName, LastName, Suffix, Street, City, State, Zip, Hunt,
Fish]` in this fixed order, and every row carries exactly these ten cells. -/
theorem c7_standard_columns (df : DataFrame) (PATH : String) (out : DataFrame)
    (hok : Prep.common df PATH = Except.ok out) :
    out.cols = stdCols ∧ ∀ r ∈ out.rows, r.length = stdCols.length := by
  have hsh := common_ok_shape hok
  subst hsh
  exact ⟨rfl, fun r hr => length_commonRows hr⟩

/-- Witness for C7 at a concrete one-row frame. -/
theorem c7_standard_columns_witness :
    wdfOut.cols = stdCols ∧ ∀ r ∈ wdfOut.rows, r.length = stdCols.length :=
  c7_standard_columns wdf "Nebraska/Hunt/f1.txt" wdfOut rfl

/-- C8: the Common Finisher applied to a record set with zero rows and the
expected standard (pre-tag) columns succeeds and produces the empty frame
with the ten standard columns — no error is raised. -/
theorem c8_empty_passthrough (PATH : String) :
    Prep.common ⟨std8, []⟩ PATH = Except.ok ⟨stdCols, []⟩ := by
  rw [common_eq (by decide)]
  rfl

/-- C3: after a successful run of the Common Finisher, every row has
`Hunt = "Y"` exactly when the substring `"Hunt"` occurs in the source path
(and `""` otherwise), and independently `Fish = "Y"` exactly when `"Fish"`
occurs in the path: this covers a path with only `"Hunt"` (`Hunt="Y"`,
`Fish=""`), a path with neither (both empty) and a path with both
(both `"Y"`). -/
theorem c3_hunt_fish_tags (df : DataFrame) (PATH : String) (out : DataFrame)
    (hwf : df.WF) (hok : Prep.common df PATH = Except.ok out) :
    ∀ r ∈ out.rows,
      colVal out r "Hunt" =
        Cell.str (if strContains PATH "Hunt" = true then "Y" else "") ∧
      colVal out r "Fish" =
        Cell.str (if strContains PATH "Fish" = true then "Y" else "") := by
  have hsh := common_ok_shape hok
  subst hsh
  intro r hr
  obtain ⟨r₀, h₀, hre⟩ := mem_commonRows hr
  have hm : (procRow df.cols r₀).length = df.cols.length := by
    rw [procRow_length]; exact hwf r₀ h₀
  subst hre
  simp only [colVal]
  constructor
  · rw [lookup_reindexRow (show findIdx "Hunt" stdCols = some 8 by decide)]
    exact tag_value_hunt PATH hm
  · rw [lookup_reindexRow (show findIdx "Fish" stdCols = some 9 by decide)]
    exact tag_value_fish PATH hm

/-- Witness for C3: a path containing `"Hunt"` but not `"Fish"` yields
`Hunt="Y"` and `Fish=""` on the single output row. -/
theorem c3_hunt_fish_tags_witness :
    colVal wdfOut wOutRow "Hunt" =
      Cell.str (if strContains "Nebraska/Hunt/f1.txt" "Hunt" = true
        then "Y" else "") ∧
    colVal wdfOut wOutRow "Fish" =
      Cell.str (if strContains "Nebraska/Hunt/f1.txt" "Fish" = true
        then "Y" else "") :=
  c3_hunt_fish_tags wdf "Nebraska/Hunt/f1.txt" wdfOut (by decide) rfl
    wOutRow (by decide)

theorem zfill5_length_ge (s : String) : 5 ≤ (zfill5 s).length := by
  show 5 ≤ (zfillChars s.data).length
  rw [zfillChars_length]
  omega

/-- C1 as stated is false: `str.zfill(5)` does not truncate, so a `Zip`
value longer than five characters survives with its original length.  Here
the six-character `Zip` `"123456"` passes through the Common Finisher
unchanged. -/
theorem c1_zip_exact_length_cex :
    Prep.common c1df "p" = Except.ok c1out ∧ c1row ∈ c1out.rows ∧
      colVal c1out c1row "Zip" = Cell.str "123456" ∧
      ("123456" : String).length ≠ 5 :=
  ⟨rfl, by decide, by decide, by decide⟩

/-- C1 (amended): after Common Finisher processing, every `Zip` value is
the zero-fill of the stripped input `Zip` value of some surviving input
row; in particular it is either missing (when the input value was missing)
or a string of length at least five — exactly five whenever the stripped
input held at most five characters. -/
theorem c1_zip_values (df : DataFrame) (PATH : String) (out : DataFrame)
    (hwf : df.WF) (hok : Prep.common df PATH = Except.ok out) :
    ∀ r ∈ out.rows, ∃ r₀ ∈ df.rows,
      colVal out r "Zip" = zfillCell (stripCell (colVal df r₀ "Zip")) ∧
      (colVal out r "Zip" = Cell.na ∨
        ∃ s, colVal out r "Zip" = Cell.str s ∧ 5 ≤ s.length) := by
  have hreq := common_ok_required hok
  simp only [Bool.and_eq_true] at hreq
  obtain ⟨iz, hiz⟩ := uniqueCol_some hreq.1.1.1.1.1
  have hsh := common_ok_shape hok
  subst hsh
  intro r hr
  obtain ⟨r₀, h₀, hre⟩ := mem_commonRows hr
  have hm : (procRow df.cols r₀).length = df.cols.length := by
    rw [procRow_length]; exact hwf r₀ h₀
  refine ⟨r₀, h₀, ?_, ?_⟩
  · subst hre
    simp only [colVal]
    rw [lookup_reindexRow (show findIdx "Zip" stdCols = some 7 by decide),
      tag_value_other PATH hm hiz (by decide) (by decide), procRow_zip hiz]
    unfold lookupCell
    rw [hiz]
  · subst hre
    simp only [colVal]
    rw [lookup_reindexRow (show findIdx "Zip" stdCols = some 7 by decide),
      tag_value_other PATH hm hiz (by decide) (by decide), procRow_zip hiz]
    cases hx : getCell r₀ iz with
    | na => exact Or.inl rfl
    | str s => exact Or.inr ⟨zfill5 (pyStrip s), rfl, zfill5_length_ge _⟩

/-- Witness for the amended C1 at a concrete one-row frame (its `Zip`
`" 685"` strips to `"685"` and zero-fills to `"00685"`). -/
theorem c1_zip_values_witness :
    ∃ r₀ ∈ wdf.rows,
      colVal wdfOut wOutRow "Zip" =
        zfillCell (stripCell (colVal wdf r₀ "Zip")) ∧
      (colVal wdfOut wOutRow "Zip" = Cell.na ∨
        ∃ s, colVal wdfOut wOutRow "Zip" = Cell.str s ∧ 5 ≤ s.length) :=
  c1_zip_values wdf "Nebraska/Hunt/f1.txt" wdfOut (by decide) rfl
    wOutRow (by decide)

/-- C2: the Zip step of the Common Finisher is `Series.str.zfill(5)`
(`zfill5` here, applied cellwise to the `Zip` column by `Prep.common`):
a value of at most five characters is left-padded with `'0'` to exactly
five characters; a longer value is returned unchanged with no truncation;
and the same plain padding applies to any string whatsoever — including
values with non-digit characters — since no numeric validation occurs. -/
theorem c2_zfill_step (s t : String) :
    (s.length ≤ 5 →
      zfill5 s = (⟨List.replicate (5 - s.length) '0'⟩ : String) ++ s ∧
      (zfill5 s).length = 5) ∧
    (5 ≤ t.length → zfill5 t = t) := by
  constructor
  · intro hs
    constructor
    · cases s with
      | mk d =>
        have hs' : d.length ≤ 5 := hs
        show (⟨zfillChars d⟩ : String) = _
        unfold zfillChars
        by_cases hd : d.length < 5
        · rw [if_pos hd]
          rfl
        · rw [if_neg hd]
          have h0 : 5 - (String.mk d).length = 0 := by
            have : (String.mk d).length = d.length := rfl
            omega
          rw [h0]
          show (⟨d⟩ : String) = ⟨List.replicate 0 '0' ++ d⟩
          rw [List.replicate_zero, List.nil_append]
    · show (zfillChars s.data).length = 5
      rw [zfillChars_length]
      have : s.length = s.data.length := rfl
      omega
  · intro ht
    cases t with
    | mk d =>
      have ht' : 5 ≤ d.length := ht
      show (⟨zfillChars d⟩ : String) = ⟨d⟩
      unfold zfillChars
      rw [if_neg (by omega)]

/-- Witness for C2: the non-digit three-character `"ab!"` is plainly
left-padded to `"00ab!"`, and the six-character `"123456"` is unchanged. -/
theorem c2_zfill_step_witness :
    zfill5 "ab!" = "00ab!" ∧ (zfill5 "ab!").length = 5 ∧
      zfill5 "123456" = "123456" := by
  have h := c2_zfill_step "ab!" "123456"
  obtain ⟨h1, h2⟩ := h.1 (by decide)
  refine ⟨?_, h2, h.2 (by decide)⟩
  rw [h1]
  decide

/-- C10: the North Dakota transform's column set never contains `Suffix`,
so the final reindex introduces `Suffix` as a missing (`NaN`) value in
every row — not as an empty string, and not as any string at all. -/
theorem c10_nd_suffix_missing (df : DataFrame) (PATH : String)
    (out : DataFrame) (hok : Prep.north_dakota df PATH = Except.ok out) :
    ∀ r ∈ out.rows, colVal out r "Suffix" = Cell.na ∧
      ∀ s, colVal out r "Suffix" ≠ Cell.str s := by
  unfold Prep.north_dakota at hok
  split at hok
  · have hsh := common_ok_shape hok
    subst hsh
    intro r hr
    obtain ⟨r₀, h₀, hre⟩ := mem_commonRows hr
    subst hre
    simp only [colVal]
    rw [lookup_reindexRow (show findIdx "Suffix" stdCols = some 3 by decide),
      tag_value_none PATH _ (show findIdx "Suffix" ndCols = none by decide)
        (by decide) (by decide)]
    exact ⟨rfl, fun s h => by cases h⟩
  · cases hok

/-- Witness for C10 at a concrete one-row seven-column workbook frame. -/
theorem c10_nd_suffix_missing_witness :
    colVal ndOut ndOutRow "Suffix" = Cell.na ∧
      ∀ s, colVal ndOut ndOutRow "Suffix" ≠ Cell.str s :=
  c10_nd_suffix_missing nddf "North Dakota/Hunt/b.xlsx" ndOut rfl
    ndOutRow (by decide)

theorem mem_dropCol {df : DataFrame} {c c' : String} (h : c' ≠ c) :
    c' ∈ (dropCol df c).cols ↔ c' ∈ df.cols := by
  simp [dropCol, List.mem_filter, h]

theorem hasCol_iff_mem {df : DataFrame} {c : String} :
    hasCol df c = true ↔ c ∈ df.cols := by
  unfold hasCol
  rw [findIdx_isSome_iff]

theorem hasCol_eq_false_iff {df : DataFrame} {c : String} :
    hasCol df c = false ↔ c ∉ df.cols := by
  constructor
  · intro h hmem
    rw [← hasCol_iff_mem] at hmem
    rw [h] at hmem
    cases hmem
  · intro h
    cases hx : hasCol df c with
    | false => rfl
    | true => exact absurd (hasCol_iff_mem.mp hx) h

theorem hasCol_dropCol {df : DataFrame} {c c' : String} (h : c' ≠ c) :
    hasCol (dropCol df c) c' = hasCol df c' := by
  cases hx : hasCol df c' with
  | true =>
    exact hasCol_iff_mem.mpr ((mem_dropCol h).mpr (hasCol_iff_mem.mp hx))
  | false =>
    apply hasCol_eq_false_iff.mpr
    intro hmem
    exact hasCol_eq_false_iff.mp hx ((mem_dropCol h).mp hmem)

theorem dropCol_cols_sub {df : DataFrame} {c c' : String}
    (hc' : c' ∈ (dropCol df c).cols) : c' ∈ df.cols := by
  have h2 : c' ∈ df.cols.filter (fun c'' => c'' ≠ c) := hc'
  exact (List.mem_filter.mp h2).1

theorem dropCol_cols_nodup {df : DataFrame} {c : String}
    (h : df.cols.Nodup) : (dropCol df c).cols.Nodup := by
  have h2 : (df.cols.filter (fun c' => c' ≠ c)).Nodup := List.Nodup.filter _ h
  exact h2

theorem neRenames_snd_inj :
    ∀ p ∈ neRenames, ∀ q ∈ neRenames, p.2 = q.2 → p.1 = q.1 := by
  decide

/-- C6, counterexample to the claim as stated: the optional-column half is
false of the program.  The Nebraska source frame `nedfDup` has no `Sex` or
`email` column and carries every unconditionally required and renamed
field, yet the transform does not return a prepared frame: the frame also
carries a `FirstName` column, so the rename duplicates the label
`FirstName`, `df['FirstName']` then selects a two-column sub-DataFrame,
and the title-casing loop of `_common` crashes with an `AttributeError`. -/
theorem c6_nebraska_optional_required_cex :
    hasCol nedfDup "Sex" = false ∧ hasCol nedfDup "email" = false ∧
    hasCol nedfDup "permitYear" = true ∧
    hasCol nedfDup "Permit Type" = true ∧ hasCol nedfDup "FullName" = true ∧
    hasCol nedfDup "firstName" = true ∧ hasCol nedfDup "middleName" = true ∧
    hasCol nedfDup "lastName" = true ∧ hasCol nedfDup "street" = true ∧
    hasCol nedfDup "city" = true ∧ hasCol nedfDup "zip" = true ∧
    ¬ ∃ out, Prep.nebraska nedfDup "p" = Except.ok out :=
  ⟨rfl, rfl, rfl, rfl, rfl, rfl, rfl, rfl, rfl, rfl, rfl, by
    rintro ⟨out, hout⟩
    rw [show Prep.nebraska nedfDup "p" = Except.error
      "KeyError or AttributeError: required column missing or duplicated"
      from rfl] at hout
    cases hout⟩

/-- C6 (amended): the Nebraska transform treats `Sex`/`email` as optional —
a source frame lacking them, holding the unconditionally required columns
and the standard renamed fields, with duplicate-free headers none of which
already uses a standard-cased target name (so the rename cannot create a
duplicated label), is processed successfully, and the output has no `Sex`
or `email` column — while a source frame missing one of the
unconditionally required columns `permitYear`, `Permit Type` or `FullName`
makes the transform fail with an error rather than proceed. -/
theorem c6_nebraska_optional_required (df : DataFrame) (PATH : String) :
    ((df.cols.Nodup ∧ (∀ t ∈ neRenames.map Prod.snd, t ∉ df.cols) ∧
      hasCol df "Sex" = false ∧ hasCol df "email" = false ∧
      hasCol df "permitYear" = true ∧ hasCol df "Permit Type" = true ∧
      hasCol df "FullName" = true ∧ hasCol df "firstName" = true ∧
      hasCol df "middleName" = true ∧ hasCol df "lastName" = true ∧
      hasCol df "street" = true ∧ hasCol df "city" = true ∧
      hasCol df "zip" = true) →
      ∃ out, Prep.nebraska df PATH = Except.ok out ∧
        hasCol out "Sex" = false ∧ hasCol out "email" = false) ∧
    ((hasCol df "permitYear" = false ∨ hasCol df "Permit Type" = false ∨
      hasCol df "FullName" = false) →
      ∃ e, Prep.nebraska df PATH = Except.error e) := by
  constructor
  · rintro ⟨hnd, hfresh, hSex, hEmail, hPY, hPT, hFN, hfn, hmn, hln, hst,
      hci, hzi⟩
    have e1 : (if hasCol df "Sex" = true then dropCol df "Sex" else df) =
        df := if_neg (by simp [hSex])
    simp only [Prep.nebraska, e1]
    have e2 : (if hasCol df "email" = true then dropCol df "email" else df) =
        df := if_neg (by simp [hEmail])
    rw [e2, if_pos (by rw [hPY, hPT, hFN]; rfl)]
    set d3 := dropCol (dropCol (dropCol df "permitYear") "Permit Type")
      "FullName" with hd3
    set d4 := renameCols d3 neRenames with hd4
    have hmm3 : ∀ c₀ : String, c₀ ∈ df.cols → c₀ ≠ "permitYear" →
        c₀ ≠ "Permit Type" → c₀ ≠ "FullName" → c₀ ∈ d3.cols := by
      intro c₀ hc₀ hn1 hn2 hn3
      rw [hd3, mem_dropCol hn3, mem_dropCol hn2, mem_dropCol hn1]
      exact hc₀
    have hnd3 : d3.cols.Nodup := by
      rw [hd3]
      exact dropCol_cols_nodup (dropCol_cols_nodup (dropCol_cols_nodup hnd))
    have hsub3 : ∀ c₀ ∈ d3.cols, c₀ ∈ df.cols := by
      intro c₀ hc₀
      rw [hd3] at hc₀
      exact dropCol_cols_sub (dropCol_cols_sub (dropCol_cols_sub hc₀))
    have hc4 : d4.cols = d3.cols.map
        (fun c₀ => match neRenames.lookup c₀ with
          | some c' => c' | none => c₀) := by
      rw [hd4]
      rfl
    have key : ∀ k T : String, neRenames.lookup k = some T → k ∈ d3.cols →
        uniqueCol d4 T = true := by
      intro k T hkT hk
      have hpair : (k, T) ∈ neRenames := lookup_pair_mem hkT
      have hTfresh : T ∉ df.cols :=
        hfresh T (List.mem_map.mpr ⟨(k, T), hpair, rfl⟩)
      apply uniqueCol_of_count
      rw [hc4, List.countP_map]
      have h1 : ∀ c₀ ∈ d3.cols,
          (((fun c' => decide (c' = T)) ∘ (fun c₀ =>
            match neRenames.lookup c₀ with
            | some c' => c' | none => c₀)) c₀ = true ↔
          (fun c₀ => decide (c₀ = k)) c₀ = true) := by
        intro c₀ hc₀
        simp only [Function.comp, decide_eq_true_eq]
        constructor
        · intro hT
          cases hl : neRenames.lookup c₀ with
          | none =>
            rw [hl] at hT
            have hT2 : c₀ = T := hT
            exact absurd (hT2 ▸ hsub3 c₀ hc₀) hTfresh
          | some t =>
            rw [hl] at hT
            have hT2 : t = T := hT
            exact neRenames_snd_inj (c₀, t) (lookup_pair_mem hl)
              (k, T) hpair hT2
        · intro hck
          subst hck
          rw [hkT]
      rw [List.countP_congr h1]
      exact countP_one_of_nodup_mem hnd3 hk
    have hZ : uniqueCol d4 "Zip" = true := key "zip" "Zip" rfl
      (hmm3 _ (hasCol_iff_mem.mp hzi) (by decide) (by decide) (by decide))
    have hF : uniqueCol d4 "FirstName" = true :=
      key "firstName" "FirstName" rfl
        (hmm3 _ (hasCol_iff_mem.mp hfn) (by decide) (by decide) (by decide))
    have hM : uniqueCol d4 "MiddleName" = true :=
      key "middleName" "MiddleName" rfl
        (hmm3 _ (hasCol_iff_mem.mp hmn) (by decide) (by decide) (by decide))
    have hL : uniqueCol d4 "LastName" = true := key "lastName" "LastName" rfl
      (hmm3 _ (hasCol_iff_mem.mp hln) (by decide) (by decide) (by decide))
    have hS : uniqueCol d4 "Street" = true := key "street" "Street" rfl
      (hmm3 _ (hasCol_iff_mem.mp hst) (by decide) (by decide) (by decide))
    have hC : uniqueCol d4 "City" = true := key "city" "City" rfl
      (hmm3 _ (hasCol_iff_mem.mp hci) (by decide) (by decide) (by decide))
    refine ⟨⟨stdCols, commonRows d4.cols PATH d4.rows⟩, ?_, rfl, rfl⟩
    exact common_eq (by rw [hZ, hF, hM, hL, hS, hC]; rfl)
  · intro hmiss
    have hstep : ∀ c₀ : String, c₀ ≠ "Sex" → c₀ ≠ "email" →
        hasCol (if hasCol (if hasCol df "Sex" = true then dropCol df "Sex"
              else df) "email" = true
          then dropCol (if hasCol df "Sex" = true then dropCol df "Sex"
            else df) "email"
          else (if hasCol df "Sex" = true then dropCol df "Sex" else df))
          c₀ = hasCol df c₀ := by
      intro c₀ h1 h2
      by_cases hsx : hasCol df "Sex" = true
      · rw [if_pos hsx]
        by_cases hem : hasCol (dropCol df "Sex") "email" = true
        · rw [if_pos hem, hasCol_dropCol h2, hasCol_dropCol h1]
        · rw [if_neg hem, hasCol_dropCol h1]
      · rw [if_neg hsx]
        by_cases hem : hasCol df "email" = true
        · rw [if_pos hem, hasCol_dropCol h2]
        · rw [if_neg hem]
    refine ⟨"KeyError: column not found in axis", ?_⟩
    simp only [Prep.nebraska]
    rw [if_neg]
    intro hcond
    simp only [Bool.and_eq_true] at hcond
    obtain ⟨⟨h1, h2⟩, h3⟩ := hcond
    rw [hstep "permitYear" (by decide) (by decide)] at h1
    rw [hstep "Permit Type" (by decide) (by decide)] at h2
    rw [hstep "FullName" (by decide) (by decide)] at h3
    rcases hmiss with hm | hm | hm
    · rw [hm] at h1; cases h1
    · rw [hm] at h2; cases h2
    · rw [hm] at h3; cases h3

/-- Witness for C6 (amended): a duplicate-free frame with no optional
columns and no pre-existing standard-cased labels succeeds with no such
output column, and a frame missing `permitYear` fails. -/
theorem c6_nebraska_optional_required_witness :
    (∃ out, Prep.nebraska nedf "p" = Except.ok out ∧
      hasCol out "Sex" = false ∧ hasCol out "email" = false) ∧
    (∃ e, Prep.nebraska nedfBad "p" = Except.error e) :=
  ⟨(c6_nebraska_optional_required nedf "p").1
      (by refine ⟨?_, ?_, ?_, ?_, ?_, ?_, ?_, ?_, ?_, ?_, ?_, ?_, ?_⟩ <;>
        decide),
   (c6_nebraska_optional_required nedfBad "p").2 (Or.inl (by decide))⟩

/-- C9: in the State Aggregator, a missing state root directory is fatal
(`os.listdir` raises, aborting the aggregation), while a category folder
with zero files contributes zero records and introduces no error: inserting
an empty folder anywhere in the listing leaves the aggregation result —
success or failure alike — unchanged. -/
theorem c9_aggregator_edges (method : String → Except String DataFrame)
    (F G : List (List String)) :
    prep_state none method = Except.error "FileNotFoundError" ∧
    prep_state (some (F ++ [] :: G)) method =
      prep_state (some (F ++ G)) method := by
  constructor
  · rfl
  · have hjoin : (F ++ [] :: G).flatten = (F ++ G).flatten := by
      simp [List.flatten_append]
    simp only [prep_state]
    rw [hjoin]

theorem allCols_pair {d1 d2 : DataFrame} (h1 : d1.cols = stdCols)
    (h2 : d2.cols = stdCols) : allCols [d1, d2] = stdCols := by
  unfold allCols
  simp only [List.foldl, h1, h2]
  decide

theorem prep_state_pair {f1 f2 : String} {d1 d2 : DataFrame}
    {method : String → Except String DataFrame}
    (hm1 : method f1 = Except.ok d1) (hm2 : method f2 = Except.ok d2)
    (hc1 : d1.cols = stdCols) (hc2 : d2.cols = stdCols)
    (hw1 : d1.WF) (hw2 : d2.WF) :
    prep_state (some [[f1], [f2]]) method =
      Except.ok ⟨stdCols, dedupRows (d1.rows ++ d2.rows)⟩ := by
  have hnd1 : d1.cols.Nodup := by rw [hc1]; decide
  have hnd2 : d2.cols.Nodup := by rw [hc2]; decide
  have hflat : ([[f1], [f2]] : List (List String)).flatten = [f1, f2] := by
    simp
  have hmapm : [f1, f2].mapM method = Except.ok [d1, d2] := by
    rw [List.mapM_cons, List.mapM_cons, List.mapM_nil, hm1, hm2]
    rfl
  have hcc : concatDFs [d1, d2] =
      Except.ok ⟨stdCols, d1.rows ++ d2.rows⟩ := by
    unfold concatDFs
    rw [allCols_pair hc1 hc2]
    have hr1 : reindex d1 stdCols = d1 := by
      rw [← hc1]
      exact reindex_self hnd1 hw1
    have hr2 : reindex d2 stdCols = d2 := by
      rw [← hc2]
      exact reindex_self hnd2 hw2
    rw [List.map_cons, List.map_cons, List.map_nil, hr1, hr2]
    simp
  have hred : prep_state (some [[f1], [f2]]) method =
      (concatDFs [d1, d2] >>= fun d =>
        pure ⟨d.cols, dedupRows d.rows⟩ : Except String DataFrame) := by
    simp only [prep_state]
    rw [hflat, hmapm]
    rfl
  rw [hred, hcc]
  rfl

/-- C5 as stated is false for the within-file half: when the input carries
a column outside the ten standard ones, two rows that differ only there
survive the duplicate drop (which runs before the reindex) and collapse to
identical output rows afterwards, so an input holding an exact-duplicate
pair can produce two copies of the standardized row instead of exactly
one. -/
theorem c5_dedup_boundaries_cex :
    2 ≤ countRow c5row c5df.rows ∧
    Prep.common c5df "p" = Except.ok ⟨stdCols, [c5img, c5img]⟩ ∧
    c5img = finishRow c5df.cols "p" c5row ∧
    countRow c5img [c5img, c5img] ≠ 1 :=
  ⟨by decide, rfl, by decide, by decide⟩

/-- C5 (amended): duplicate removal works at both boundaries provided the
frames carry no extra columns.  Within one file: if the input's columns are
duplicate-free and drawn from the eight standard pre-tag columns, a record
set containing two identical rows yields exactly one copy of that row's
standardized image.  Across files: if two files of one state each
contribute an identical standardized row, the State Aggregator's
concatenated result contains exactly one such row. -/
theorem c5_dedup_boundaries :
    (∀ (df : DataFrame) (PATH : String) (out : DataFrame) (r : Row),
      df.cols.Nodup → (∀ c ∈ df.cols, c ∈ std8) → df.WF →
      2 ≤ countRow r df.rows →
      Prep.common df PATH = Except.ok out →
      countRow (finishRow df.cols PATH r) out.rows = 1) ∧
    (∀ (f1 f2 : String) (d1 d2 : DataFrame) (r : Row)
      (method : String → Except String DataFrame) (out : DataFrame),
      method f1 = Except.ok d1 → method f2 = Except.ok d2 →
      d1.cols = stdCols → d2.cols = stdCols → d1.WF → d2.WF →
      r ∈ d1.rows → r ∈ d2.rows →
      prep_state (some [[f1], [f2]]) method = Except.ok out →
      countRow r out.rows = 1) := by
  constructor
  · intro df PATH out r hnd hsub hwf hcount hok
    have hsh := common_ok_shape hok
    subst hsh
    have hmemr : r ∈ df.rows := countRow_pos (by omega)
    have hmema : procRow df.cols r ∈
        dedupRows (df.rows.map (procRow df.cols)) :=
      mem_dedupRows.mpr (List.mem_map.mpr ⟨r, hmemr, rfl⟩)
    unfold commonRows finishRow
    exact @countRow_map_inj
      (fun m => reindexRow (hfCols df.cols) stdCols
        (tagRow df.cols PATH (hfRow df.cols m)))
      (dedupRows (List.map (procRow df.cols) df.rows))
      (procRow df.cols r) (nodup_dedupRows _) hmema
      (by
        intro x hx hgx
        obtain ⟨r₀, h₀, hpr⟩ := List.mem_map.mp (mem_dedupRows.mp hx)
        have hlx : x.length = df.cols.length := by
          rw [← hpr, procRow_length]
          exact hwf r₀ h₀
        have hla : (procRow df.cols r).length = df.cols.length := by
          rw [procRow_length]
          exact hwf r hmemr
        exact postRow_inj hnd hsub hlx hla hgx)
  · intro f1 f2 d1 d2 r method out hm1 hm2 hc1 hc2 hw1 hw2 hr1 hr2 hok
    rw [prep_state_pair hm1 hm2 hc1 hc2 hw1 hw2] at hok
    cases hok
    rw [count_dedupRows, if_pos (List.mem_append_left _ hr1)]

/-- Witness for the amended C5: a duplicated row collapses to one
standardized image within one file, and a row contributed by two files
appears once after state aggregation. -/
theorem c5_dedup_boundaries_witness :
    countRow (finishRow std8 "Nebraska/Hunt/f1.txt" wRow) wdfOut.rows = 1 ∧
    countRow sdfRow (DataFrame.mk stdCols [sdfRow]).rows = 1 :=
  ⟨c5_dedup_boundaries.1 wdf2 "Nebraska/Hunt/f1.txt" wdfOut wRow (by decide)
      (by decide) (by decide) (by decide) rfl,
   c5_dedup_boundaries.2 "a" "b" sdf sdf sdfRow wMethod ⟨stdCols, [sdfRow]⟩
      rfl rfl rfl rfl (by decide) (by decide) (by decide) (by decide) rfl⟩

theorem getCell_reindexRow {cols' nc : List String} {c : String} {j : Nat}
    (h : findIdx c nc = some j) (m : Row) :
    getCell (reindexRow cols' nc m) j = lookupCell cols' m c :=
  getCell_map_names h

theorem commonRows_nodup (df : DataFrame) (PATH : String)
    (hnd : df.cols.Nodup) (hsub : ∀ c ∈ df.cols, c ∈ std8) (hwf : df.WF) :
    (commonRows df.cols PATH df.rows).Nodup := by
  unfold commonRows
  apply List.Nodup.map_on _ (nodup_dedupRows _)
  intro x hx y hy hxy
  obtain ⟨rx, hrx, hpx⟩ := List.mem_map.mp (mem_dedupRows.mp hx)
  obtain ⟨ry, hry, hpy⟩ := List.mem_map.mp (mem_dedupRows.mp hy)
  have hlx : x.length = df.cols.length := by
    rw [← hpx, procRow_length]
    exact hwf rx hrx
  have hly : y.length = df.cols.length := by
    rw [← hpy, procRow_length]
    exact hwf ry hry
  exact postRow_inj hnd hsub hlx hly hxy

theorem commonRows_stable (df : DataFrame) (PATH : String) (hwf : df.WF)
    (hZ : hasCol df "Zip" = true) (hFi : hasCol df "FirstName" = true)
    (hMi : hasCol df "MiddleName" = true) (hLa : hasCol df "LastName" = true)
    (hSt : hasCol df "Street" = true) (hCi : hasCol df "City" = true) :
    ∀ r ∈ commonRows df.cols PATH df.rows,
      procRow stdCols r = r ∧
      getCell r 8 =
        Cell.str (if strContains PATH "Hunt" = true then "Y" else "") ∧
      getCell r 9 =
        Cell.str (if strContains PATH "Fish" = true then "Y" else "") := by
  intro r hr
  have hlen : r.length = stdCols.length := length_commonRows hr
  obtain ⟨r₀, h₀, hre⟩ := mem_commonRows hr
  have hm : (procRow df.cols r₀).length = df.cols.length := by
    rw [procRow_length]; exact hwf r₀ h₀
  have g8 : getCell r 8 =
      Cell.str (if strContains PATH "Hunt" = true then "Y" else "") := by
    rw [hre, getCell_reindexRow (show findIdx "Hunt" stdCols = some 8
      by decide)]
    exact tag_value_hunt PATH hm
  have g9 : getCell r 9 =
      Cell.str (if strContains PATH "Fish" = true then "Y" else "") := by
    rw [hre, getCell_reindexRow (show findIdx "Fish" stdCols = some 9
      by decide)]
    exact tag_value_fish PATH hm
  refine ⟨?_, g8, g9⟩
  apply rowExt (by rw [procRow_length])
  intro i
  by_cases hi : i < 10
  · have htitle : ∀ (c : String) (j : Nat) (ic : Nat),
        findIdx c stdCols = some j → findIdx c df.cols = some ic →
        c ≠ "Hunt" → c ≠ "Fish" →
        getCell (procRow df.cols r₀) ic =
          titleCell (stripCell (getCell r₀ ic)) →
        getCell r j = titleCell (stripCell (getCell r₀ ic)) := by
      intro c j ic hcj hcic hch hcf hproc
      rw [hre, getCell_reindexRow hcj,
        tag_value_other PATH hm hcic hch hcf, hproc]
    interval_cases i
    · obtain ⟨ic, hic⟩ := hasCol_some hFi
      have gj := htitle "FirstName" 0 ic (by decide) hic (by decide)
        (by decide) (procRow_first hic r₀)
      rw [procRow_first (show findIdx "FirstName" stdCols = some 0
        by decide), gj, stripCell_titleCell_stripCell, titleCell_titleCell]
    · obtain ⟨ic, hic⟩ := hasCol_some hMi
      have gj := htitle "MiddleName" 1 ic (by decide) hic (by decide)
        (by decide) (procRow_middle hic r₀)
      rw [procRow_middle (show findIdx "MiddleName" stdCols = some 1
        by decide), gj, stripCell_titleCell_stripCell, titleCell_titleCell]
    · obtain ⟨ic, hic⟩ := hasCol_some hLa
      have gj := htitle "LastName" 2 ic (by decide) hic (by decide)
        (by decide) (procRow_last hic r₀)
      rw [procRow_last (show findIdx "LastName" stdCols = some 2
        by decide), gj, stripCell_titleCell_stripCell, titleCell_titleCell]
    · rw [procRow_other (show findIdx "Suffix" stdCols = some 3 by decide)
        (by decide) (by decide) (by decide) (by decide) (by decide)
        (by decide)]
      cases hs : findIdx "Suffix" df.cols with
      | some i3 =>
        have g3 : getCell r 3 = stripCell (getCell r₀ i3) := by
          rw [hre, getCell_reindexRow (show findIdx "Suffix" stdCols = some 3
            by decide), tag_value_other PATH hm hs (by decide) (by decide),
            procRow_other hs (by decide) (by decide) (by decide) (by decide)
              (by decide) (by decide)]
        rw [g3, stripCell_stripCell]
      | none =>
        have g3 : getCell r 3 = Cell.na := by
          rw [hre, getCell_reindexRow (show findIdx "Suffix" stdCols = some 3
            by decide)]
          exact tag_value_none PATH _ hs (by decide) (by decide)
        rw [g3]
        rfl
    · obtain ⟨ic, hic⟩ := hasCol_some hSt
      have gj := htitle "Street" 4 ic (by decide) hic (by decide)
        (by decide) (procRow_street hic r₀)
      rw [procRow_street (show findIdx "Street" stdCols = some 4
        by decide), gj, stripCell_titleCell_stripCell, titleCell_titleCell]
    · obtain ⟨ic, hic⟩ := hasCol_some hCi
      have gj := htitle "City" 5 ic (by decide) hic (by decide)
        (by decide) (procRow_city hic r₀)
      rw [procRow_city (show findIdx "City" stdCols = some 5
        by decide), gj, stripCell_titleCell_stripCell, titleCell_titleCell]
    · rw [procRow_other (show findIdx "State" stdCols = some 6 by decide)
        (by decide) (by decide) (by decide) (by decide) (by decide)
        (by decide)]
      cases hs : findIdx "State" df.cols with
      | some i6 =>
        have g6 : getCell r 6 = stripCell (getCell r₀ i6) := by
          rw [hre, getCell_reindexRow (show findIdx "State" stdCols = some 6
            by decide), tag_value_other PATH hm hs (by decide) (by decide),
            procRow_other hs (by decide) (by decide) (by decide) (by decide)
              (by decide) (by decide)]
        rw [g6, stripCell_stripCell]
      | none =>
        have g6 : getCell r 6 = Cell.na := by
          rw [hre, getCell_reindexRow (show findIdx "State" stdCols = some 6
            by decide)]
          exact tag_value_none PATH _ hs (by decide) (by decide)
        rw [g6]
        rfl
    · obtain ⟨iz, hiz⟩ := hasCol_some hZ
      have g7 : getCell r 7 = zfillCell (stripCell (getCell r₀ iz)) := by
        rw [hre, getCell_reindexRow (show findIdx "Zip" stdCols = some 7
          by decide), tag_value_other PATH hm hiz (by decide) (by decide),
          procRow_zip hiz]
      rw [procRow_zip (show findIdx "Zip" stdCols = some 7 by decide), g7,
        stripCell_zfillCell_stripCell, zfillCell_zfillCell]
    · rw [procRow_other (show findIdx "Hunt" stdCols = some 8 by decide)
        (by decide) (by decide) (by decide) (by decide) (by decide)
        (by decide), g8]
      by_cases hp : strContains PATH "Hunt" = true <;> simp [hp] <;> decide
    · rw [procRow_other (show findIdx "Fish" stdCols = some 9 by decide)
        (by decide) (by decide) (by decide) (by decide) (by decide)
        (by decide), g9]
      by_cases hp : strContains PATH "Fish" = true <;> simp [hp] <;> decide
  · have h10 : stdCols.length = 10 := rfl
    rw [getCell_ge (by rw [procRow_length]; omega), getCell_ge (by omega)]

theorem second_pass_post {PATH : String} {r : Row}
    (hlen : r.length = stdCols.length)
    (g8 : getCell r 8 =
      Cell.str (if strContains PATH "Hunt" = true then "Y" else ""))
    (g9 : getCell r 9 =
      Cell.str (if strContains PATH "Fish" = true then "Y" else "")) :
    reindexRow (hfCols stdCols) stdCols
      (tagRow stdCols PATH (hfRow stdCols r)) = r := by
  have h10 : r.length = 10 := hlen
  have hhf : hfCols stdCols = stdCols := by decide
  have hfr : hfRow stdCols r = listModify (fun _ => Cell.str "") 9
      (listModify (fun _ => Cell.str "") 8 r) := by
    unfold hfRow
    simp only [show findIdx "Hunt" stdCols = some 8 from by decide,
      show findIdx "Fish" stdCols = some 9 from by decide]
  have hz : tagRow stdCols PATH (hfRow stdCols r) = r := by
    unfold tagRow
    simp only [hhf, show findIdx "Hunt" stdCols = some 8 from by decide,
      show findIdx "Fish" stdCols = some 9 from by decide, modifyAt?, hfr]
    apply rowExt
    · simp only [listModify_length]
    · intro i
      by_cases h8 : i = 8
      · subst h8
        rw [getCell_listModify_ne (show (8 : Nat) ≠ 9 by omega),
          getCell_listModify_self_lt (by simp only [listModify_length]; omega),
          getCell_listModify_ne (show (8 : Nat) ≠ 9 by omega),
          getCell_listModify_self_lt (by omega), g8]
        by_cases hp : strContains PATH "Hunt" = true <;> simp [hp]
      · by_cases h9 : i = 9
        · subst h9
          rw [getCell_listModify_self_lt
              (by simp only [listModify_length]; omega),
            getCell_listModify_ne (show (9 : Nat) ≠ 8 by omega),
            getCell_listModify_self_lt (by simp only [listModify_length]; omega),
            g9]
          by_cases hp : strContains PATH "Fish" = true <;> simp [hp]
        · rw [getCell_listModify_ne (fun he => h9 he),
            getCell_listModify_ne (fun he => h8 he),
            getCell_listModify_ne (fun he => h9 he),
            getCell_listModify_ne (fun he => h8 he)]
  rw [hz, hhf]
  exact reindexRow_self (by decide) hlen

/-- C4 as stated is false: on an input holding a column outside the ten
standard ones, the duplicate drop runs before that column is discarded, so
the first pass can emit two identical rows that only a second pass would
merge — the Common Finisher is not idempotent there. -/
theorem c4_idempotent_cex :
    Prep.common c4df "p" = Except.ok c4out ∧
    Prep.common c4out "p" = Except.ok c4out2 ∧
    c4out2 ≠ c4out :=
  ⟨rfl, rfl, by decide⟩

/-- C4 (amended): the Common Finisher is idempotent on record sets whose
columns are duplicate-free and drawn from the eight standard pre-tag
columns (as every state transform supplies): applying it to its own output
with the same path returns that output unchanged. -/
theorem c4_idempotent (df : DataFrame) (PATH : String) (out : DataFrame)
    (hnd : df.cols.Nodup) (hsub : ∀ c ∈ df.cols, c ∈ std8) (hwf : df.WF)
    (hok : Prep.common df PATH = Except.ok out) :
    Prep.common out PATH = Except.ok out := by
  have hreq := common_ok_required hok
  simp only [Bool.and_eq_true] at hreq
  obtain ⟨⟨⟨⟨⟨hZ, hFi⟩, hMi⟩, hLa⟩, hSt⟩, hCi⟩ := hreq
  have hsh := common_ok_shape hok
  subst hsh
  have hstable := commonRows_stable df PATH hwf (uniqueCol_hasCol hZ)
    (uniqueCol_hasCol hFi) (uniqueCol_hasCol hMi) (uniqueCol_hasCol hLa)
    (uniqueCol_hasCol hSt) (uniqueCol_hasCol hCi)
  have hndR := commonRows_nodup df PATH hnd hsub hwf
  rw [@common_eq ⟨stdCols, commonRows df.cols PATH df.rows⟩ PATH rfl]
  have hR : commonRows stdCols PATH (commonRows df.cols PATH df.rows) =
      commonRows df.cols PATH df.rows := by
    show (dedupRows (List.map (procRow stdCols)
        (commonRows df.cols PATH df.rows))).map
      (fun m => reindexRow (hfCols stdCols) stdCols
        (tagRow stdCols PATH (hfRow stdCols m))) =
      commonRows df.cols PATH df.rows
    rw [show List.map (procRow stdCols) (commonRows df.cols PATH df.rows) =
        commonRows df.cols PATH df.rows from
      map_eq_self_of (fun r hr => (hstable r hr).1)]
    rw [show dedupRows (commonRows df.cols PATH df.rows) =
        commonRows df.cols PATH df.rows from dedupRows_eq_self hndR]
    apply map_eq_self_of
    intro r hr
    exact second_pass_post (length_commonRows hr) ((hstable r hr).2.1)
      ((hstable r hr).2.2)
  show Except.ok (⟨stdCols,
    commonRows stdCols PATH (commonRows df.cols PATH df.rows)⟩ : DataFrame) =
    Except.ok (⟨stdCols, commonRows df.cols PATH df.rows⟩ : DataFrame)
  rw [hR]

/-- Witness for the amended C4: the finished frame `wdfOut` passes through
the Common Finisher unchanged. -/
theorem c4_idempotent_witness :
    Prep.common wdfOut "Nebraska/Hunt/f1.txt" = Except.ok wdfOut :=
  c4_idempotent wdf "Nebraska/Hunt/f1.txt" wdfOut (by decide) (by decide)
    (by decide) rfl
